import Mathlib

/-!
# Issue lifecycle metrics: the date arithmetic of `src/utils/dateCalculations.js`

A shallow embedding of the calculation module and proofs about it.

Modelling conventions.

* A parsed `dayjs` value is a calendar day number (days since 1970-01-01, local, no time zone)
  together with the millisecond inside that day.  `startOf('day')` keeps the day number only, so
  every value the module computes with after truncation is an `Int` day number: `isAfter`,
  `isBefore`, `isSameOrAfter`, `isSameOrBefore` become `>`, `<`, `≥`, `≤`, `a.diff(b, 'day')`
  becomes `a - b`, `add(1, 'day')` becomes `+ 1`, and `day()` is the weekday of the day number.
* A JavaScript value passed as a date is `absent` (falsy: `null`, `undefined`, empty string),
  `invalid` (present, but `dayjs(x).isValid()` is false) or `valid`.
* A JavaScript number that may be `NaN` is an `Option Int`, `none` standing for `NaN`.
* `Array.prototype.sort` is stable; for a comparator that is a total preorder the result of a
  stable sort is unique, and it is computed here by a stable insertion sort.
-/

namespace DateCalc

/-! ## Dates -/

/-- A valid `dayjs` instant: calendar day number and millisecond within that day. -/
structure Dayjs where
  day : Int
  ms : Nat
  deriving DecidableEq, Repr

/-- A value passed where the module expects a date. -/
inductive DateInput where
  | absent
  | invalid
  | valid (d : Dayjs)
  deriving DecidableEq, Repr

/-- Day number of the proleptic Gregorian date `y-m-d` (days since 1970-01-01). -/
def daysFromCivil (y m d : Int) : Int :=
  let y1 := if m ≤ 2 then y - 1 else y
  let era := y1 / 400
  let yoe := y1 - era * 400
  let mp := (m + 9) % 12
  let doy := (153 * mp + 2) / 5 + d - 1
  let doe := yoe * 365 + yoe / 4 - yoe / 100 + doy
  era * 146097 + doe - 719468

/-- The value `dayjs('YYYY-MM-DD')`: local midnight of that calendar date. -/
def ymd (y m d : Int) : Dayjs := { day := daysFromCivil y m d, ms := 0 }

/-- The weekday `dayjs.day()` of a day number: 0 is Sunday, 6 is Saturday
(1970-01-01 was a Thursday). -/
def dayOfWeek (d : Int) : Int := (d + 4) % 7

/-- Comparison `a.isBefore(b)` of two instants, at millisecond granularity. -/
def Dayjs.isBefore (a b : Dayjs) : Bool :=
  decide (a.day < b.day) || (decide (a.day = b.day) && decide (a.ms < b.ms))

/-! ## Ranges -/

/-- A caller-supplied blocked range `{start, end}`. -/
structure BlockedRange where
  start : DateInput
  end_ : DateInput
  deriving DecidableEq, Repr

/-- A range of the module after `startOf('day')`: both ends are day numbers. -/
structure DayRange where
  start : Int
  end_ : Int
  deriving DecidableEq, Repr

/-- The built-in holiday list `DEFAULT_HOLIDAYS`. -/
def DEFAULT_HOLIDAYS : List (Option Dayjs) :=
  [ some (ymd 2026 1 26),   -- Republic Day
    some (ymd 2026 3 14),   -- Holi
    some (ymd 2026 8 15),   -- Independence Day
    some (ymd 2026 10 2),   -- Gandhi Jayanti
    some (ymd 2026 10 24),  -- Diwali
    some (ymd 2026 12 25) ] -- Christmas

/-! ## `calculateTotalDays` -/

/-- Function `calculateTotalDays(startDate, endDate)`: 0 when a date is absent, otherwise
`end.diff(start, 'day') + 1` on the truncated dates; `none` is the `NaN` obtained from an
invalid date. -/
def calculateTotalDays (startDate endDate : DateInput) : Option Int :=
  match startDate, endDate with
  | .absent, _ => some 0
  | _, .absent => some 0
  | .valid s, .valid e =>
    let start := s.day
    let end_ := e.day
    some (end_ - start + 1)
  | _, _ => none

/-! ## `normalizeBlockedRanges` -/

/-- The chain `.filter(range => range.start && range.end).map(startOf day).filter(end >= start)`
applied to one range: the truncated range when it is kept, `none` when it is dropped.  A range
with an invalid date is dropped by the last filter, every comparison with an invalid date being
false. -/
def toValidRange (range : BlockedRange) : Option DayRange :=
  match range.start, range.end_ with
  | .valid s, .valid e =>
    if e.day ≥ s.day then some { start := s.day, end_ := e.day } else none
  | _, _ => none

/-- The comparator of `validRanges.sort((a, b) => a.start.diff(b.start))` as an order. -/
def startLE (a b : DayRange) : Prop := a.start ≤ b.start

instance : DecidableRel startLE := fun a b => inferInstanceAs (Decidable (a.start ≤ b.start))

/-- One iteration of the merge loop on the array `merged`. -/
def mergeStep (merged : List DayRange) (current : DayRange) : List DayRange :=
  match merged.getLast? with
  | none => [current]
  | some lastMerged =>
    if current.start ≤ lastMerged.end_ + 1 then
      if current.end_ > lastMerged.end_ then
        merged.dropLast ++ [{ lastMerged with end_ := current.end_ }]
      else merged
    else merged ++ [current]

/-- Function `normalizeBlockedRanges(blockedRanges)`; `none` is an absent argument. -/
def normalizeBlockedRanges (blockedRanges : Option (List BlockedRange)) : List DayRange :=
  match blockedRanges with
  | none => []
  | some ranges =>
    let validRanges := (ranges.filterMap toValidRange).insertionSort startLE
    match validRanges with
    | [] => []
    | first :: rest => rest.foldl mergeStep [first]

/-! ## `calculateBlockedDays` -/

/-- Body of the loop `for (const range of normalizedRanges)` of `calculateBlockedDays`. -/
def blockedStep (issueStart issueEnd : Int) (totalBlockedDays : Int) (range : DayRange) : Int :=
  let intersectionStart := if range.start > issueStart then range.start else issueStart
  let intersectionEnd := if range.end_ < issueEnd then range.end_ else issueEnd
  if intersectionEnd ≥ intersectionStart then
    totalBlockedDays + (intersectionEnd - intersectionStart + 1)
  else totalBlockedDays

/-- Function `calculateBlockedDays(startDate, endDate, blockedRanges)`.  With an invalid window
date every comparison of the loop is false, so nothing is added. -/
def calculateBlockedDays (startDate endDate : DateInput)
    (blockedRanges : Option (List BlockedRange)) : Int :=
  match startDate, endDate with
  | .absent, _ => 0
  | _, .absent => 0
  | .valid s, .valid e =>
    (normalizeBlockedRanges blockedRanges).foldl (blockedStep s.day e.day) 0
  | _, _ => 0

/-! ## `isDateBlocked` -/

/-- Function `isDateBlocked(date, normalizedRanges)`. -/
def isDateBlocked (date : Int) (normalizedRanges : List DayRange) : Bool :=
  normalizedRanges.any fun range => decide (date ≥ range.start) && decide (date ≤ range.end_)

/-! ## `calculateWeekendDays` -/

/-- The variables of the `while` loop of `calculateWeekendDays`. -/
structure WeekendScan where
  currentDate : Int
  weekendCount : Nat
  deriving DecidableEq, Repr

/-- Body of the `while` loop of `calculateWeekendDays`. -/
def weekendBody (normalizedRanges : List DayRange) (st : WeekendScan) : WeekendScan :=
  let dow := dayOfWeek st.currentDate
  { currentDate := st.currentDate + 1
    weekendCount :=
      if dow = 0 ∨ dow = 6 then
        if !isDateBlocked st.currentDate normalizedRanges then st.weekendCount + 1
        else st.weekendCount
      else st.weekendCount }

/-- The loop `while (currentDate.isSameOrBefore(end))` of `calculateWeekendDays`; it terminates
because the distance to `end` shrinks at every iteration. -/
def weekendLoop (end_ : Int) (normalizedRanges : List DayRange) (st : WeekendScan) : Nat :=
  if st.currentDate ≤ end_ then
    weekendLoop end_ normalizedRanges (weekendBody normalizedRanges st)
  else st.weekendCount
termination_by (end_ - st.currentDate + 1).toNat
decreasing_by
  simp only [weekendBody]
  omega

/-- Function `calculateWeekendDays(startDate, endDate, blockedRanges)`.  With an invalid window
date the loop condition is false at once. -/
def calculateWeekendDays (startDate endDate : DateInput)
    (blockedRanges : Option (List BlockedRange)) : Nat :=
  match startDate, endDate with
  | .absent, _ => 0
  | _, .absent => 0
  | .valid s, .valid e =>
    weekendLoop e.day (normalizeBlockedRanges blockedRanges)
      { currentDate := s.day, weekendCount := 0 }
  | _, _ => 0

/-! ## `calculateHolidayDays` -/

/-- The fourth argument of `calculateHolidayDays`: left out (the default list is used), `null`,
or an array whose entries parse to a date (`some`) or do not (`none`). -/
inductive HolidaysArg where
  | omitted
  | null
  | list (holidays : List (Option Dayjs))

/-- Body of the loop `for (const holiday of holidays)` of `calculateHolidayDays`. -/
def holidayStep (start end_ : Int) (normalizedRanges : List DayRange) (holidayCount : Nat)
    (holiday : Option Dayjs) : Nat :=
  match holiday with
  | none => holidayCount
  | some h =>
    let holidayDate := h.day
    if holidayDate ≥ start ∧ holidayDate ≤ end_ then
      if !isDateBlocked holidayDate normalizedRanges then holidayCount + 1 else holidayCount
    else holidayCount

/-- The loop of `calculateHolidayDays` on a present, non-empty holiday array. -/
def holidayCountOf (startDate endDate : DateInput) (blockedRanges : Option (List BlockedRange))
    (holidays : List (Option Dayjs)) : Nat :=
  match startDate, endDate with
  | .valid s, .valid e =>
    holidays.foldl (holidayStep s.day e.day (normalizeBlockedRanges blockedRanges)) 0
  | _, _ => 0

/-- Function `calculateHolidayDays(startDate, endDate, blockedRanges, holidays)`. -/
def calculateHolidayDays (startDate endDate : DateInput)
    (blockedRanges : Option (List BlockedRange)) (holidays : HolidaysArg) : Nat :=
  match startDate, endDate with
  | .absent, _ => 0
  | _, .absent => 0
  | _, _ =>
    match holidays with
    | .null => 0
    | .omitted => holidayCountOf startDate endDate blockedRanges DEFAULT_HOLIDAYS
    | .list [] => 0
    | .list hs => holidayCountOf startDate endDate blockedRanges hs

/-! ## The two headline metrics -/

/-- Function `calculateAgeOfIssue(startDate, endDate, blockedDays, holidayDays)`. -/
def calculateAgeOfIssue (startDate endDate : DateInput) (blockedDays holidayDays : Int) :
    Option Int :=
  (calculateTotalDays startDate endDate).map fun totalDays =>
    max 0 (totalDays - blockedDays - holidayDays)

/-- Function `calculateTimeToResolve(totalDays, blockedDays, holidayDays, weekendDays)`. -/
def calculateTimeToResolve (totalDays blockedDays holidayDays weekendDays : Int) : Int :=
  max 0 (totalDays - blockedDays - holidayDays - weekendDays)

/-! ## `validateDateRange` -/

/-- The object `{ isValid, error }` returned by `validateDateRange`. -/
structure Validation where
  isValid : Bool
  error : String
  deriving DecidableEq, Repr

/-- Function `validateDateRange(startDate, endDate)`; the dates are compared as instants,
without `startOf('day')`. -/
def validateDateRange (startDate endDate : DateInput) : Validation :=
  match startDate, endDate with
  | .absent, _ => { isValid := false, error := "Both dates are required" }
  | _, .absent => { isValid := false, error := "Both dates are required" }
  | .valid start, .valid end_ =>
    if end_.isBefore start then
      { isValid := false, error := "End date must be on or after start date" }
    else { isValid := true, error := "" }
  | _, _ => { isValid := false, error := "Invalid date format" }

/-! ## Specification vocabulary -/

/-- Day `d` lies in the normalized range `r`, both ends included. -/
def DayRange.Contains (r : DayRange) (d : Int) : Prop := r.start ≤ d ∧ d ≤ r.end_

instance (r : DayRange) (d : Int) : Decidable (r.Contains d) :=
  inferInstanceAs (Decidable (r.start ≤ d ∧ d ≤ r.end_))

/-- Day `d` lies in some range of the list. -/
def Covered (l : List DayRange) (d : Int) : Prop := ∃ r ∈ l, r.Contains d

instance (l : List DayRange) (d : Int) : Decidable (Covered l d) :=
  inferInstanceAs (Decidable (∃ r ∈ l, r.Contains d))

/-- Day `d` lies in the caller-supplied range `r`, and `r` is valid: both endpoints are present
and parse, and the end day is not before the start day. -/
def BlockedRange.Contains (r : BlockedRange) (d : Int) : Prop :=
  match r.start, r.end_ with
  | .valid s, .valid e => s.day ≤ e.day ∧ s.day ≤ d ∧ d ≤ e.day
  | _, _ => False

instance (r : BlockedRange) (d : Int) : Decidable (r.Contains d) := by
  unfold BlockedRange.Contains
  split <;> infer_instance

/-- Day `d` lies in at least one valid range of the caller-supplied list. -/
def InValidRange (ranges : List BlockedRange) (d : Int) : Prop := ∃ r ∈ ranges, r.Contains d

instance (ranges : List BlockedRange) (d : Int) : Decidable (InValidRange ranges d) :=
  inferInstanceAs (Decidable (∃ r ∈ ranges, r.Contains d))

/-- Day `d` is a Saturday or a Sunday. -/
def IsWeekend (d : Int) : Prop := dayOfWeek d = 0 ∨ dayOfWeek d = 6

instance (d : Int) : Decidable (IsWeekend d) :=
  inferInstanceAs (Decidable (dayOfWeek d = 0 ∨ dayOfWeek d = 6))

/-- The gap between consecutive output ranges: at least one free day in between. -/
def Gap (a b : DayRange) : Prop := a.end_ + 1 < b.start

/-- The invariant of a normalized list: every range is non-empty and any earlier range ends more
than one day before any later range starts. -/
def Normalized (l : List DayRange) : Prop :=
  (∀ r ∈ l, r.start ≤ r.end_) ∧ l.Pairwise Gap

/-- A normalized range seen as a caller-supplied range again (two `dayjs` values at midnight). -/
def DayRange.toInput (r : DayRange) : BlockedRange :=
  { start := .valid { day := r.start, ms := 0 }, end_ := .valid { day := r.end_, ms := 0 } }

/-- The merge loop as a recursion on the ranges still to scan, carrying the last merged range;
the ranges before it are final. -/
def mergeLoop (lastMerged : DayRange) : List DayRange → List DayRange
  | [] => [lastMerged]
  | current :: rest =>
    if current.start ≤ lastMerged.end_ + 1 then
      mergeLoop
        (if current.end_ > lastMerged.end_ then { lastMerged with end_ := current.end_ }
         else lastMerged) rest
    else lastMerged :: mergeLoop current rest

/-- The holiday entry parses to a date that lies in some valid blocked range. -/
def HolidayBlocked (ranges : List BlockedRange) (h : Option Dayjs) : Prop :=
  match h with
  | some x => InValidRange ranges x.day
  | none => False

instance (ranges : List BlockedRange) (h : Option Dayjs) : Decidable (HolidayBlocked ranges h) := by
  unfold HolidayBlocked
  split <;> infer_instance

/-- The distinct days named by the holiday list that lie in the window and in no valid blocked
range. -/
def holidaySet (start end_ : Int) (ranges : List BlockedRange) (hs : List (Option Dayjs)) :
    Finset Int :=
  (hs.filterMap fun h => h.map Dayjs.day).toFinset.filter
    fun d => start ≤ d ∧ d ≤ end_ ∧ ¬ InValidRange ranges d

/-- The holiday entry `h` is counted by the loop of `calculateHolidayDays`: it parses, lies in
the window and is not blocked. -/
def HolidayCounts (start end_ : Int) (norm : List DayRange) (h : Option Dayjs) : Bool :=
  match h with
  | none => false
  | some h => decide (start ≤ h.day ∧ h.day ≤ end_) && !isDateBlocked h.day norm

instance : IsTotal DayRange startLE := ⟨fun a b => Int.le_total a.start b.start⟩

instance : IsTrans DayRange startLE := ⟨fun _ _ _ h1 h2 => Int.le_trans h1 h2⟩

/-- The days named by the parseable entries of a holiday list. -/
def holidayDayList (hs : List (Option Dayjs)) : List Int :=
  hs.filterMap fun h => h.map Dayjs.day

/-- Day `d` is named by some parseable entry of the holiday list. -/
def IsHoliday (hs : List (Option Dayjs)) (d : Int) : Prop := d ∈ holidayDayList hs

instance (hs : List (Option Dayjs)) (d : Int) : Decidable (IsHoliday hs d) :=
  inferInstanceAs (Decidable (d ∈ holidayDayList hs))

/-- The business days of the window: the days that are not blocked, not a holiday and neither a
Saturday nor a Sunday. -/
def businessDays (start end_ : Int) (ranges : List BlockedRange) (hs : List (Option Dayjs)) :
    Finset Int :=
  (Finset.Icc start end_).filter
    fun d => ¬ InValidRange ranges d ∧ ¬ IsHoliday hs d ∧ ¬ IsWeekend d

/-- The days of the window that are a holiday and a Saturday or Sunday at once, and not
blocked: they are subtracted twice by the Time to Resolve formula. -/
def weekendHolidays (start end_ : Int) (ranges : List BlockedRange) (hs : List (Option Dayjs)) :
    Finset Int :=
  (Finset.Icc start end_).filter
    fun d => IsHoliday hs d ∧ IsWeekend d ∧ ¬ InValidRange ranges d

/-! ## The merge loop -/

theorem foldl_mergeStep (rest : List DayRange) :
    ∀ (pre : List DayRange) (last : DayRange),
      rest.foldl mergeStep (pre ++ [last]) = pre ++ mergeLoop last rest := by
  induction rest with
  | nil => intro pre last; simp [mergeLoop]
  | cons cur rest ih =>
    intro pre last
    simp only [List.foldl_cons, mergeLoop]
    have hstep : mergeStep (pre ++ [last]) cur =
        if cur.start ≤ last.end_ + 1 then
          pre ++ [if cur.end_ > last.end_ then { last with end_ := cur.end_ } else last]
        else (pre ++ [last]) ++ [cur] := by
      have hlast : (pre ++ [last]).getLast? = some last := by simp
      simp only [mergeStep, hlast, List.dropLast_concat]
      split_ifs <;> rfl
    rw [hstep]
    split_ifs with h1 h2
    · exact ih pre _
    · exact ih pre _
    · rw [ih (pre ++ [last]) cur]; simp

theorem normalize_eq (ranges : List BlockedRange) :
    normalizeBlockedRanges (some ranges) =
      match (ranges.filterMap toValidRange).insertionSort startLE with
      | [] => []
      | first :: rest => mergeLoop first rest := by
  simp only [normalizeBlockedRanges]
  split
  · rfl
  · next first rest _ => simpa using foldl_mergeStep rest [] first

theorem mergeLoop_invariant (rest : List DayRange) :
    ∀ last : DayRange, last.start ≤ last.end_ → (∀ r ∈ rest, r.start ≤ r.end_) →
      (last :: rest).Pairwise startLE →
      (∀ x ∈ mergeLoop last rest, last.start ≤ x.start) ∧ Normalized (mergeLoop last rest) := by
  induction rest with
  | nil =>
    intro last hl _ _
    simp [mergeLoop, Normalized, hl]
  | cons cur rest ih =>
    intro last hl hv hs
    have hcur : cur.start ≤ cur.end_ := hv cur (List.mem_cons_self _ _)
    have hrest : ∀ r ∈ rest, r.start ≤ r.end_ := fun r hr => hv r (List.mem_cons_of_mem _ hr)
    rw [List.pairwise_cons] at hs
    obtain ⟨hlast, hs2⟩ := hs
    have hlc : last.start ≤ cur.start := hlast cur (List.mem_cons_self _ _)
    simp only [mergeLoop]
    split_ifs with h1 h2
    · refine ih _ (by simp only; omega) hrest ?_
      rw [List.pairwise_cons]
      exact ⟨fun r hr => hlast r (List.mem_cons_of_mem _ hr), (List.pairwise_cons.mp hs2).2⟩
    · refine ih _ hl hrest ?_
      rw [List.pairwise_cons]
      exact ⟨fun r hr => hlast r (List.mem_cons_of_mem _ hr), (List.pairwise_cons.mp hs2).2⟩
    · obtain ⟨ihs, ihv, ihp⟩ := ih cur hcur hrest hs2
      refine ⟨?_, ?_, ?_⟩
      · intro x hx
        rcases List.mem_cons.mp hx with rfl | hx
        · exact le_refl _
        · exact le_trans hlc (ihs x hx)
      · intro x hx
        rcases List.mem_cons.mp hx with rfl | hx
        · exact hl
        · exact ihv x hx
      · rw [List.pairwise_cons]
        refine ⟨fun x hx => ?_, ihp⟩
        have := ihs x hx
        simp only [Gap]
        omega

theorem covered_cons (a : DayRange) (l : List DayRange) (d : Int) :
    Covered (a :: l) d ↔ a.Contains d ∨ Covered l d := by
  simp [Covered]

theorem covered_nil (d : Int) : ¬ Covered [] d := by
  simp [Covered]

theorem covered_mergeLoop (rest : List DayRange) :
    ∀ last : DayRange, (∀ r ∈ rest, r.start ≤ r.end_) → (last :: rest).Pairwise startLE →
      ∀ d : Int, Covered (mergeLoop last rest) d ↔ Covered (last :: rest) d := by
  induction rest with
  | nil => intro last _ _ d; simp [mergeLoop]
  | cons cur rest ih =>
    intro last hv hs d
    have hcur : cur.start ≤ cur.end_ := hv cur (List.mem_cons_self _ _)
    have hrest : ∀ r ∈ rest, r.start ≤ r.end_ := fun r hr => hv r (List.mem_cons_of_mem _ hr)
    rw [List.pairwise_cons] at hs
    obtain ⟨hlast, hs2⟩ := hs
    have hlc : last.start ≤ cur.start := hlast cur (List.mem_cons_self _ _)
    have hs3 : ∀ l2 : DayRange, l2.start = last.start → (l2 :: rest).Pairwise startLE := by
      intro l2 h2
      rw [List.pairwise_cons]
      refine ⟨fun r hr => ?_, (List.pairwise_cons.mp hs2).2⟩
      have := hlast r (List.mem_cons_of_mem _ hr)
      simp only [startLE] at this ⊢
      omega
    simp only [mergeLoop]
    split_ifs with h1 h2
    · rw [ih { last with end_ := cur.end_ } hrest (hs3 _ rfl) d]
      simp only [covered_cons, DayRange.Contains]
      constructor
      · rintro (h | h)
        · by_cases hd : d ≤ last.end_
          · exact Or.inl ⟨h.1, hd⟩
          · exact Or.inr (Or.inl ⟨by omega, h.2⟩)
        · exact Or.inr (Or.inr h)
      · rintro (h | h | h)
        · exact Or.inl ⟨h.1, by omega⟩
        · exact Or.inl ⟨by omega, h.2⟩
        · exact Or.inr h
    · rw [ih last hrest (hs3 _ rfl) d]
      simp only [covered_cons, DayRange.Contains]
      constructor
      · rintro (h | h)
        · exact Or.inl h
        · exact Or.inr (Or.inr h)
      · rintro (h | h | h)
        · exact Or.inl h
        · exact Or.inl ⟨by omega, by omega⟩
        · exact Or.inr h
    · rw [covered_cons, ih cur hrest hs2 d, covered_cons, covered_cons, covered_cons]

theorem mergeLoop_of_gap (rest : List DayRange) :
    ∀ last : DayRange, (last :: rest).Pairwise Gap → mergeLoop last rest = last :: rest := by
  induction rest with
  | nil => intro last _; rfl
  | cons cur rest ih =>
    intro last hp
    rw [List.pairwise_cons] at hp
    have hg : Gap last cur := hp.1 cur (List.mem_cons_self _ _)
    simp only [Gap] at hg
    simp only [mergeLoop]
    rw [if_neg (by omega), ih cur hp.2]

/-! ## Facts about `normalizeBlockedRanges` -/

theorem toValidRange_eq_some {r : BlockedRange} {v : DayRange} (h : toValidRange r = some v) :
    ∃ s e : Dayjs, r.start = .valid s ∧ r.end_ = .valid e ∧ s.day ≤ e.day ∧
      v = { start := s.day, end_ := e.day } := by
  unfold toValidRange at h
  split at h
  · next s e hs he =>
    split_ifs at h with hle
    exact ⟨s, e, hs, he, hle, (Option.some.inj h).symm⟩
  · exact absurd h (by simp)

theorem inValidRange_iff (ranges : List BlockedRange) (d : Int) :
    InValidRange ranges d ↔
      ∃ r ∈ ranges, ∃ s e : Dayjs, r.start = .valid s ∧ r.end_ = .valid e ∧
        s.day ≤ e.day ∧ s.day ≤ d ∧ d ≤ e.day := by
  unfold InValidRange
  constructor
  · rintro ⟨r, hr, hc⟩
    refine ⟨r, hr, ?_⟩
    unfold BlockedRange.Contains at hc
    split at hc
    · next s e hs he => exact ⟨s, e, hs, he, hc⟩
    · exact absurd hc id
  · rintro ⟨r, hr, s, e, hs, he, hc⟩
    refine ⟨r, hr, ?_⟩
    unfold BlockedRange.Contains
    rw [hs, he]
    exact hc

theorem covered_validRanges (ranges : List BlockedRange) (d : Int) :
    Covered (ranges.filterMap toValidRange) d ↔ InValidRange ranges d := by
  rw [inValidRange_iff]
  unfold Covered
  constructor
  · rintro ⟨v, hv, hc⟩
    obtain ⟨r, hr, hrv⟩ := List.mem_filterMap.mp hv
    obtain ⟨s, e, hs, he, hle, rfl⟩ := toValidRange_eq_some hrv
    exact ⟨r, hr, s, e, hs, he, hle, hc.1, hc.2⟩
  · rintro ⟨r, hr, s, e, hs, he, hle, h1, h2⟩
    refine ⟨{ start := s.day, end_ := e.day }, List.mem_filterMap.mpr ⟨r, hr, ?_⟩, h1, h2⟩
    unfold toValidRange
    rw [hs, he]
    simp [hle]

theorem validRanges_valid (ranges : List BlockedRange) :
    ∀ v ∈ ranges.filterMap toValidRange, v.start ≤ v.end_ := by
  intro v hv
  obtain ⟨r, _, hrv⟩ := List.mem_filterMap.mp hv
  obtain ⟨s, e, _, _, hle, rfl⟩ := toValidRange_eq_some hrv
  exact hle

theorem sorted_valid (ranges : List BlockedRange) :
    ((ranges.filterMap toValidRange).insertionSort startLE).Pairwise startLE ∧
    ∀ v ∈ (ranges.filterMap toValidRange).insertionSort startLE, v.start ≤ v.end_ :=
  ⟨List.sorted_insertionSort startLE _, fun v hv =>
    validRanges_valid ranges v ((List.perm_insertionSort startLE _).mem_iff.mp hv)⟩

theorem normalized_nil : Normalized [] := by
  simp [Normalized]

theorem normalize_normalized (blockedRanges : Option (List BlockedRange)) :
    Normalized (normalizeBlockedRanges blockedRanges) := by
  cases blockedRanges with
  | none => exact normalized_nil
  | some ranges =>
    rw [normalize_eq]
    obtain ⟨hs, hv⟩ := sorted_valid ranges
    split
    · exact normalized_nil
    · next first rest heq =>
      rw [heq] at hs hv
      exact (mergeLoop_invariant rest first (hv first (List.mem_cons_self _ _))
        (fun r hr => hv r (List.mem_cons_of_mem _ hr)) hs).2

theorem covered_normalize (ranges : List BlockedRange) (d : Int) :
    Covered (normalizeBlockedRanges (some ranges)) d ↔ InValidRange ranges d := by
  rw [normalize_eq, ← covered_validRanges]
  obtain ⟨hs, hv⟩ := sorted_valid ranges
  have hperm := List.perm_insertionSort startLE (ranges.filterMap toValidRange)
  have hcov : Covered ((ranges.filterMap toValidRange).insertionSort startLE) d ↔
      Covered (ranges.filterMap toValidRange) d := by
    unfold Covered
    constructor
    · rintro ⟨r, hr, hc⟩; exact ⟨r, hperm.mem_iff.mp hr, hc⟩
    · rintro ⟨r, hr, hc⟩; exact ⟨r, hperm.mem_iff.mpr hr, hc⟩
  rw [← hcov]
  split
  · next heq => rw [heq]
  · next first rest heq =>
    rw [heq] at hs hv ⊢
    exact covered_mergeLoop rest first (fun r hr => hv r (List.mem_cons_of_mem _ hr)) hs d

theorem covered_normalize_none (d : Int) : ¬ Covered (normalizeBlockedRanges none) d := by
  simp [normalizeBlockedRanges, Covered]

theorem isDateBlocked_iff (d : Int) (l : List DayRange) :
    isDateBlocked d l = true ↔ Covered l d := by
  simp [isDateBlocked, Covered, DayRange.Contains]

theorem normalized_sorted {l : List DayRange} (h : Normalized l) :
    l.Pairwise fun a b => a.start < b.start := by
  obtain ⟨hv, hp⟩ := h
  induction l with
  | nil => exact List.Pairwise.nil
  | cons a l ih =>
    rw [List.pairwise_cons] at hp ⊢
    refine ⟨fun b hb => ?_, ih (fun r hr => hv r (List.mem_cons_of_mem _ hr)) hp.2⟩
    have h1 := hv a (List.mem_cons_self _ _)
    have h2 := hp.1 b hb
    simp only [Gap] at h2
    omega

theorem normalize_fixed {l : List DayRange} (h : Normalized l) :
    normalizeBlockedRanges (some (l.map DayRange.toInput)) = l := by
  have hfm : (l.map DayRange.toInput).filterMap toValidRange = l := by
    rw [List.filterMap_map]
    have : ∀ l2 : List DayRange, (∀ r ∈ l2, r.start ≤ r.end_) →
        l2.filterMap (toValidRange ∘ DayRange.toInput) = l2 := by
      intro l2
      induction l2 with
      | nil => intro _; rfl
      | cons a l2 ih =>
        intro hv
        have ha := hv a (List.mem_cons_self _ _)
        have : (toValidRange ∘ DayRange.toInput) a = some a := by
          simp [toValidRange, DayRange.toInput, ha]
        rw [List.filterMap_cons_some this, ih (fun r hr => hv r (List.mem_cons_of_mem _ hr))]
    exact this l h.1
  have hsorted : l.Sorted startLE :=
    (normalized_sorted h).imp fun hab => Int.le_of_lt hab
  rw [normalize_eq, hfm, List.Sorted.insertionSort_eq hsorted]
  cases l with
  | nil => rfl
  | cons first rest => exact mergeLoop_of_gap rest first h.2

/-! ## Counting days -/

theorem blockedStep_eq_card (s e acc : Int) (r : DayRange) :
    blockedStep s e acc r = acc + (((Finset.Icc s e).filter fun d => r.Contains d).card : Int) := by
  have hI : ((Finset.Icc s e).filter fun d => r.Contains d) =
      Finset.Icc (max s r.start) (min e r.end_) := by
    ext d
    simp only [Finset.mem_filter, Finset.mem_Icc, DayRange.Contains]
    omega
  rw [hI, Int.card_Icc]
  unfold blockedStep
  simp only
  split_ifs <;> omega

theorem card_covered_cons (s e : Int) (r : DayRange) (l : List DayRange)
    (hdisj : ∀ x ∈ l, r.end_ < x.start) :
    ((Finset.Icc s e).filter fun d => Covered (r :: l) d).card =
      ((Finset.Icc s e).filter fun d => r.Contains d).card +
        ((Finset.Icc s e).filter fun d => Covered l d).card := by
  have hor : ((Finset.Icc s e).filter fun d => Covered (r :: l) d) =
      ((Finset.Icc s e).filter fun d => r.Contains d ∨ Covered l d) := by
    apply Finset.filter_congr
    intro d _
    exact covered_cons r l d
  rw [hor, Finset.filter_or, Finset.card_union_of_disjoint]
  rw [Finset.disjoint_filter]
  rintro d _ hr ⟨x, hx, hxd⟩
  have := hdisj x hx
  simp only [DayRange.Contains] at hr hxd
  omega

theorem foldl_blockedStep (s e : Int) (l : List DayRange) :
    ∀ acc : Int, Normalized l →
      l.foldl (blockedStep s e) acc =
        acc + (((Finset.Icc s e).filter fun d => Covered l d).card : Int) := by
  induction l with
  | nil =>
    intro acc _
    simp [covered_nil]
  | cons r l ih =>
    intro acc hn
    obtain ⟨hv, hp⟩ := hn
    rw [List.pairwise_cons] at hp
    rw [List.foldl_cons, ih _ ⟨fun x hx => hv x (List.mem_cons_of_mem _ hx), hp.2⟩,
      blockedStep_eq_card, card_covered_cons s e r l]
    · push_cast
      ring
    · intro x hx
      have := hp.1 x hx
      simp only [Gap] at this
      omega

theorem weekendLoop_eq_card (end_ : Int) (norm : List DayRange) :
    ∀ (n : Nat) (st : WeekendScan), (end_ - st.currentDate + 1).toNat = n →
      weekendLoop end_ norm st = st.weekendCount +
        ((Finset.Icc st.currentDate end_).filter fun d => IsWeekend d ∧ ¬ Covered norm d).card := by
  intro n
  induction n with
  | zero =>
    intro st hn
    have hlt : ¬ st.currentDate ≤ end_ := by omega
    rw [weekendLoop, if_neg hlt, Finset.Icc_eq_empty hlt]
    simp
  | succ n ih =>
    intro st hn
    have hle : st.currentDate ≤ end_ := by omega
    have hI : Finset.Icc st.currentDate end_ =
        insert st.currentDate (Finset.Icc (st.currentDate + 1) end_) := by
      ext d
      simp only [Finset.mem_insert, Finset.mem_Icc]
      omega
    have hnot : st.currentDate ∉ Finset.Icc (st.currentDate + 1) end_ := by
      simp only [Finset.mem_Icc]
      omega
    rw [weekendLoop, if_pos hle, ih (weekendBody norm st) (by simp only [weekendBody]; omega), hI,
      Finset.filter_insert]
    simp only [weekendBody]
    by_cases hw : IsWeekend st.currentDate
    · have hw2 : dayOfWeek st.currentDate = 0 ∨ dayOfWeek st.currentDate = 6 := hw
      by_cases hb : Covered norm st.currentDate
      · have hb2 : isDateBlocked st.currentDate norm = true := (isDateBlocked_iff _ _).mpr hb
        simp [hw, hb, hb2, hw2]
      · have hb2 : isDateBlocked st.currentDate norm = false := by
          rw [← Bool.not_eq_true, isDateBlocked_iff]; exact hb
        have hnot2 : st.currentDate ∉
            (Finset.Icc (st.currentDate + 1) end_).filter
              fun d => IsWeekend d ∧ ¬ Covered norm d := by
          intro hmem
          exact hnot (Finset.mem_of_mem_filter _ hmem)
        have hr : (if IsWeekend st.currentDate ∧ ¬ Covered norm st.currentDate then
            insert st.currentDate ((Finset.Icc (st.currentDate + 1) end_).filter
              fun d => IsWeekend d ∧ ¬ Covered norm d)
            else (Finset.Icc (st.currentDate + 1) end_).filter
              fun d => IsWeekend d ∧ ¬ Covered norm d) =
            insert st.currentDate ((Finset.Icc (st.currentDate + 1) end_).filter
              fun d => IsWeekend d ∧ ¬ Covered norm d) := if_pos ⟨hw, hb⟩
        rw [hr, Finset.card_insert_of_not_mem hnot2, if_pos hw2, hb2]
        simp only [Bool.not_false, if_true]
        omega
    · have hw2 : ¬ (dayOfWeek st.currentDate = 0 ∨ dayOfWeek st.currentDate = 6) := hw
      simp [hw, hw2]

theorem foldl_holidayStep (start end_ : Int) (norm : List DayRange)
    (hs : List (Option Dayjs)) :
    ∀ acc : Nat, hs.foldl (holidayStep start end_ norm) acc =
      acc + hs.countP (HolidayCounts start end_ norm) := by
  induction hs with
  | nil => intro acc; simp
  | cons h hs ih =>
    intro acc
    rw [List.foldl_cons, ih, List.countP_cons]
    cases h with
    | none => simp [holidayStep, HolidayCounts]
    | some h =>
      simp only [holidayStep, HolidayCounts]
      by_cases hw : h.day ≥ start ∧ h.day ≤ end_
      · have hw2 : start ≤ h.day ∧ h.day ≤ end_ := hw
        by_cases hb : isDateBlocked h.day norm = true
        · simp [hw2, hb]
        · simp [hw2, hb]
          omega
      · have hw2 : ¬ (start ≤ h.day ∧ h.day ≤ end_) := hw
        simp [hw, hw2]

theorem calculateHolidayDays_valid (s e : Dayjs) (blockedRanges : Option (List BlockedRange))
    (hs : List (Option Dayjs)) :
    calculateHolidayDays (.valid s) (.valid e) blockedRanges (.list hs) =
      hs.countP (HolidayCounts s.day e.day (normalizeBlockedRanges blockedRanges)) := by
  cases hs with
  | nil => simp [calculateHolidayDays]
  | cons h hs =>
    simp only [calculateHolidayDays, holidayCountOf]
    rw [foldl_holidayStep, Nat.zero_add]

theorem calculateHolidayDays_not_valid (startDate endDate : DateInput)
    (hne : ∀ s e : Dayjs, ¬ (startDate = .valid s ∧ endDate = .valid e))
    (blockedRanges : Option (List BlockedRange)) (hol : HolidaysArg) :
    calculateHolidayDays startDate endDate blockedRanges hol = 0 := by
  cases startDate <;> cases endDate <;>
    first
    | exact absurd ⟨rfl, rfl⟩ (hne _ _)
    | (rcases hol with _ | _ | (_ | _) <;> simp [calculateHolidayDays, holidayCountOf])

theorem holidayCountOf_valid (s e : Dayjs) (blockedRanges : Option (List BlockedRange))
    (hs : List (Option Dayjs)) :
    holidayCountOf (.valid s) (.valid e) blockedRanges hs =
      hs.countP (HolidayCounts s.day e.day (normalizeBlockedRanges blockedRanges)) := by
  simp only [holidayCountOf]
  rw [foldl_holidayStep, Nat.zero_add]

theorem holidayCounts_of_empty_window {start end_ : Int} (h : end_ < start)
    (norm : List DayRange) (x : Option Dayjs) : HolidayCounts start end_ norm x = false := by
  cases x with
  | none => rfl
  | some x =>
    have : ¬ (start ≤ x.day ∧ x.day ≤ end_) := by omega
    simp [HolidayCounts, this]

theorem countP_holiday_filter (start end_ : Int) (ranges : List BlockedRange)
    (norm : List DayRange)
    (hsub : ∀ d, Covered norm d → Covered (normalizeBlockedRanges (some ranges)) d)
    (hs : List (Option Dayjs)) :
    (hs.filter fun h => ¬ HolidayBlocked ranges h).countP (HolidayCounts start end_ norm) =
      hs.countP (HolidayCounts start end_ (normalizeBlockedRanges (some ranges))) := by
  induction hs with
  | nil => rfl
  | cons h hs ih =>
    by_cases hb : HolidayBlocked ranges h
    · have hdrop : (decide ¬ HolidayBlocked ranges h) = false := by simp [hb]
      rw [List.filter_cons_of_neg (by simp [hb]), ih, List.countP_cons_of_neg]
      cases h with
      | none => exact absurd hb id
      | some x =>
        have hx : isDateBlocked x.day (normalizeBlockedRanges (some ranges)) = true :=
          (isDateBlocked_iff _ _).mpr ((covered_normalize ranges x.day).mpr hb)
        simp [HolidayCounts, hx]
    · rw [List.filter_cons_of_pos (by simp [hb]), List.countP_cons, List.countP_cons, ih]
      congr 1
      cases h with
      | none => rfl
      | some x =>
        have hx : ¬ Covered (normalizeBlockedRanges (some ranges)) x.day :=
          fun hc => hb ((covered_normalize ranges x.day).mp hc)
        have h1 : isDateBlocked x.day (normalizeBlockedRanges (some ranges)) = false := by
          rw [← Bool.not_eq_true, isDateBlocked_iff]; exact hx
        have h2 : isDateBlocked x.day norm = false := by
          rw [← Bool.not_eq_true, isDateBlocked_iff]; exact fun hc => hx (hsub _ hc)
        simp [HolidayCounts, h1, h2]

theorem countP_holiday_days (start end_ : Int) (ranges : List BlockedRange)
    (hs : List (Option Dayjs)) :
    hs.countP (HolidayCounts start end_ (normalizeBlockedRanges (some ranges))) =
      (hs.filterMap fun h => h.map Dayjs.day).countP
        fun d => decide (start ≤ d ∧ d ≤ end_ ∧ ¬ InValidRange ranges d) := by
  induction hs with
  | nil => rfl
  | cons h hs ih =>
    cases h with
    | none =>
      rw [List.countP_cons_of_neg _ _ (by simp [HolidayCounts]), ih]
      rfl
    | some x =>
      have hfm : ((some x :: hs).filterMap fun h => h.map Dayjs.day) =
          x.day :: hs.filterMap fun h => h.map Dayjs.day := rfl
      rw [hfm, List.countP_cons, List.countP_cons, ih]
      congr 1
      by_cases hb : InValidRange ranges x.day
      · have hx : isDateBlocked x.day (normalizeBlockedRanges (some ranges)) = true :=
          (isDateBlocked_iff _ _).mpr ((covered_normalize ranges x.day).mpr hb)
        simp [HolidayCounts, hx, hb]
      · have hx : isDateBlocked x.day (normalizeBlockedRanges (some ranges)) = false := by
          rw [← Bool.not_eq_true, isDateBlocked_iff, covered_normalize]; exact hb
        by_cases hw : start ≤ x.day ∧ x.day ≤ end_
        · have hw3 : start ≤ x.day ∧ x.day ≤ end_ ∧ ¬ InValidRange ranges x.day :=
            ⟨hw.1, hw.2, hb⟩
          simp [HolidayCounts, hx, hw, hw3]
        · have hw3 : ¬ (start ≤ x.day ∧ x.day ≤ end_ ∧ ¬ InValidRange ranges x.day) :=
            fun h3 => hw ⟨h3.1, h3.2.1⟩
          simp [HolidayCounts, hx, hw, hw3]

theorem countP_holiday_nodup (start end_ : Int) (ranges : List BlockedRange)
    (hs : List (Option Dayjs)) (hnd : (hs.filterMap fun h => h.map Dayjs.day).Nodup) :
    hs.countP (HolidayCounts start end_ (normalizeBlockedRanges (some ranges))) =
      (holidaySet start end_ ranges hs).card := by
  rw [countP_holiday_days, holidaySet, List.countP_eq_length_filter,
    ← List.toFinset_card_of_nodup (hnd.filter _), List.toFinset_filter]
  congr 1
  apply Finset.filter_congr
  intro d _
  simp

/-! ## The counters as cardinalities -/

theorem calculateBlockedDays_card (s e : Dayjs) (ranges : List BlockedRange) :
    calculateBlockedDays (.valid s) (.valid e) (some ranges) =
      (((Finset.Icc s.day e.day).filter fun d => InValidRange ranges d).card : Int) := by
  simp only [calculateBlockedDays]
  rw [foldl_blockedStep s.day e.day _ 0 (normalize_normalized _), Int.zero_add]
  congr 2
  apply Finset.filter_congr
  intro d _
  exact covered_normalize ranges d

theorem calculateWeekendDays_card (s e : Dayjs) (ranges : List BlockedRange) :
    calculateWeekendDays (.valid s) (.valid e) (some ranges) =
      ((Finset.Icc s.day e.day).filter fun d => IsWeekend d ∧ ¬ InValidRange ranges d).card := by
  simp only [calculateWeekendDays]
  rw [weekendLoop_eq_card e.day _ _ _ rfl, Nat.zero_add]
  congr 1
  apply Finset.filter_congr
  intro d _
  rw [covered_normalize]

theorem holidaySet_eq_filter (start end_ : Int) (ranges : List BlockedRange)
    (hs : List (Option Dayjs)) :
    holidaySet start end_ ranges hs =
      (Finset.Icc start end_).filter fun d => IsHoliday hs d ∧ ¬ InValidRange ranges d := by
  ext d
  simp only [holidaySet, IsHoliday, holidayDayList, Finset.mem_filter, List.mem_toFinset,
    Finset.mem_Icc]
  tauto

theorem calculateHolidayDays_card (s e : Dayjs) (ranges : List BlockedRange)
    (hs : List (Option Dayjs)) (hnd : (holidayDayList hs).Nodup) :
    calculateHolidayDays (.valid s) (.valid e) (some ranges) (.list hs) =
      ((Finset.Icc s.day e.day).filter
        fun d => IsHoliday hs d ∧ ¬ InValidRange ranges d).card := by
  rw [calculateHolidayDays_valid, countP_holiday_nodup _ _ _ _ hnd, holidaySet_eq_filter]

theorem card_partition (W : Finset Int) (B H K : Int → Prop) [DecidablePred B]
    [DecidablePred H] [DecidablePred K] :
    (W.card : Int) - (W.filter fun d => B d).card - (W.filter fun d => H d ∧ ¬ B d).card
        - (W.filter fun d => K d ∧ ¬ B d).card =
      ((W.filter fun d => ¬ B d ∧ ¬ H d ∧ ¬ K d).card : Int)
        - (W.filter fun d => H d ∧ K d ∧ ¬ B d).card := by
  induction W using Finset.induction_on with
  | empty => simp
  | insert ha ih =>
    rename_i a W
    have hm : ∀ (p : Int → Prop) [DecidablePred p], a ∉ W.filter p :=
      fun p _ hmem => ha (Finset.mem_of_mem_filter _ hmem)
    rw [Finset.card_insert_of_not_mem ha]
    simp only [Finset.filter_insert]
    by_cases hB : B a <;> by_cases hH : H a <;> by_cases hK : K a <;>
      simp only [hB, hH, hK, not_true_eq_false, not_false_eq_true, and_self, and_true, and_false,
        false_and, true_and, if_true, if_false, Finset.card_insert_of_not_mem (hm _)] <;>
      push_cast <;> omega

theorem card_window {a b : Int} (h : a ≤ b) : ((Finset.Icc a b).card : Int) = b - a + 1 := by
  rw [Int.card_Icc]
  omega

theorem metrics_balance (s e : Dayjs) (hse : s.day ≤ e.day) (ranges : List BlockedRange)
    (hs : List (Option Dayjs)) (hnd : (holidayDayList hs).Nodup) :
    (e.day - s.day + 1) - calculateBlockedDays (.valid s) (.valid e) (some ranges)
        - (calculateHolidayDays (.valid s) (.valid e) (some ranges) (.list hs) : Int)
        - (calculateWeekendDays (.valid s) (.valid e) (some ranges) : Int) =
      ((businessDays s.day e.day ranges hs).card : Int)
        - ((weekendHolidays s.day e.day ranges hs).card : Int) := by
  rw [calculateBlockedDays_card, calculateHolidayDays_card s e ranges hs hnd,
    calculateWeekendDays_card, ← card_window hse]
  exact card_partition (Finset.Icc s.day e.day) (fun d => InValidRange ranges d)
    (fun d => IsHoliday hs d) (fun d => IsWeekend d)

theorem blocked_add_holiday_le (s e : Dayjs) (hse : s.day ≤ e.day) (ranges : List BlockedRange)
    (hs : List (Option Dayjs)) (hnd : (holidayDayList hs).Nodup) :
    0 ≤ calculateBlockedDays (.valid s) (.valid e) (some ranges) ∧
    calculateBlockedDays (.valid s) (.valid e) (some ranges)
        + (calculateHolidayDays (.valid s) (.valid e) (some ranges) (.list hs) : Int) ≤
      e.day - s.day + 1 := by
  rw [calculateBlockedDays_card, calculateHolidayDays_card s e ranges hs hnd, ← card_window hse]
  have h := card_partition (Finset.Icc s.day e.day) (fun d => InValidRange ranges d)
    (fun d => IsHoliday hs d) (fun _ => False)
  simp only [false_and, and_false, Finset.filter_False, Finset.card_empty, Nat.cast_zero,
    sub_zero] at h
  constructor
  · exact Int.natCast_nonneg _
  · have hn := Int.natCast_nonneg
      ((Finset.Icc s.day e.day).filter
        fun d => ¬ InValidRange ranges d ∧ ¬ IsHoliday hs d ∧ ¬ False).card
    omega

theorem blocked_add_weekend_le (s e : Dayjs) (hse : s.day ≤ e.day)
    (ranges : List BlockedRange) :
    calculateBlockedDays (.valid s) (.valid e) (some ranges)
        + (calculateWeekendDays (.valid s) (.valid e) (some ranges) : Int) ≤
      e.day - s.day + 1 := by
  rw [calculateBlockedDays_card, calculateWeekendDays_card, ← card_window hse]
  have h := card_partition (Finset.Icc s.day e.day) (fun d => InValidRange ranges d)
    (fun _ => False) (fun d => IsWeekend d)
  simp only [false_and, and_false, Finset.filter_False, Finset.card_empty, Nat.cast_zero,
    sub_zero] at h
  have hn := Int.natCast_nonneg
    ((Finset.Icc s.day e.day).filter
      fun d => ¬ InValidRange ranges d ∧ ¬ False ∧ ¬ IsWeekend d).card
  omega

/-! ## Window clipping -/

theorem inValidRange_insert_outside (start end_ : Int) (l1 l2 : List BlockedRange)
    (rs re : Dayjs) (hout : re.day < start ∨ end_ < rs.day) (d : Int)
    (h1 : start ≤ d) (h2 : d ≤ end_) :
    InValidRange (l1 ++ ⟨.valid rs, .valid re⟩ :: l2) d ↔ InValidRange (l1 ++ l2) d := by
  have hr : ¬ BlockedRange.Contains ⟨.valid rs, .valid re⟩ d := by
    simp only [BlockedRange.Contains]
    omega
  simp only [InValidRange, List.mem_append, List.mem_cons]
  constructor
  · rintro ⟨r, hr1 | rfl | hr2, hc⟩
    · exact ⟨r, Or.inl hr1, hc⟩
    · exact absurd hc hr
    · exact ⟨r, Or.inr hr2, hc⟩
  · rintro ⟨r, hr1 | hr2, hc⟩
    · exact ⟨r, Or.inl hr1, hc⟩
    · exact ⟨r, Or.inr (Or.inr hr2), hc⟩

theorem holidayCounts_congr (start end_ : Int) (norm1 norm2 : List DayRange)
    (hc : ∀ d, start ≤ d → d ≤ end_ → (Covered norm1 d ↔ Covered norm2 d))
    (x : Option Dayjs) :
    HolidayCounts start end_ norm1 x = HolidayCounts start end_ norm2 x := by
  cases x with
  | none => rfl
  | some x =>
    simp only [HolidayCounts]
    by_cases hw : start ≤ x.day ∧ x.day ≤ end_
    · have hb : isDateBlocked x.day norm1 = isDateBlocked x.day norm2 := by
        rw [Bool.eq_iff_iff, isDateBlocked_iff, isDateBlocked_iff]
        exact hc x.day hw.1 hw.2
      rw [hb]
    · simp [hw]

theorem calculateHolidayDays_valid_arg (s e : Dayjs) (blockedRanges : Option (List BlockedRange))
    (hol : HolidaysArg) :
    calculateHolidayDays (.valid s) (.valid e) blockedRanges hol =
      match hol with
      | .null => 0
      | .omitted =>
        DEFAULT_HOLIDAYS.countP (HolidayCounts s.day e.day (normalizeBlockedRanges blockedRanges))
      | .list hs => hs.countP (HolidayCounts s.day e.day (normalizeBlockedRanges blockedRanges)) := by
  rcases hol with _ | _ | hs
  · simp only [calculateHolidayDays, holidayCountOf_valid]
  · rfl
  · exact calculateHolidayDays_valid s e blockedRanges hs

theorem calculateHolidayDays_congr (s e : Dayjs) (R1 R2 : Option (List BlockedRange))
    (hc : ∀ d, s.day ≤ d → d ≤ e.day →
      (Covered (normalizeBlockedRanges R1) d ↔ Covered (normalizeBlockedRanges R2) d))
    (hol : HolidaysArg) :
    calculateHolidayDays (.valid s) (.valid e) R1 hol =
      calculateHolidayDays (.valid s) (.valid e) R2 hol := by
  rw [calculateHolidayDays_valid_arg, calculateHolidayDays_valid_arg]
  have hf : HolidayCounts s.day e.day (normalizeBlockedRanges R1) =
      HolidayCounts s.day e.day (normalizeBlockedRanges R2) :=
    funext (holidayCounts_congr _ _ _ _ hc)
  rw [hf]

/-! ## Uniqueness of the normal form -/

theorem normalized_tail {a : DayRange} {l : List DayRange} (h : Normalized (a :: l)) :
    Normalized l :=
  ⟨fun r hr => h.1 r (List.mem_cons_of_mem _ hr), (List.pairwise_cons.mp h.2).2⟩

theorem covered_tail_gt {a : DayRange} {l : List DayRange} (h : Normalized (a :: l)) {d : Int}
    (hc : Covered l d) : a.end_ + 1 < d := by
  obtain ⟨r, hr, hrd⟩ := hc
  have hg : Gap a r := (List.pairwise_cons.mp h.2).1 r hr
  simp only [Gap] at hg
  simp only [DayRange.Contains] at hrd
  omega

theorem normalized_head_start_le {a b : DayRange} {l1 l2 : List DayRange}
    (h1 : Normalized (a :: l1)) (h2 : Normalized (b :: l2))
    (hc : ∀ d, Covered (a :: l1) d → Covered (b :: l2) d) : b.start ≤ a.start := by
  have ha : a.start ≤ a.end_ := h1.1 a (List.mem_cons_self _ _)
  have hb : b.start ≤ b.end_ := h2.1 b (List.mem_cons_self _ _)
  have hcov : Covered (b :: l2) a.start :=
    hc _ ((covered_cons a l1 _).mpr (Or.inl ⟨le_refl _, ha⟩))
  rcases (covered_cons b l2 _).mp hcov with hin | hin
  · exact hin.1
  · have := covered_tail_gt h2 hin
    omega

theorem normalized_head_end_le {a b : DayRange} {l1 l2 : List DayRange}
    (h1 : Normalized (a :: l1)) (h2 : Normalized (b :: l2)) (hst : a.start = b.start)
    (hc : ∀ d, Covered (a :: l1) d → Covered (b :: l2) d) : a.end_ ≤ b.end_ := by
  have ha : a.start ≤ a.end_ := h1.1 a (List.mem_cons_self _ _)
  have hb : b.start ≤ b.end_ := h2.1 b (List.mem_cons_self _ _)
  by_contra hlt
  -- the day after the end of `b` lies in `a`, yet nothing on the other side covers it
  have hmid : Covered (b :: l2) (b.end_ + 1) :=
    hc _ ((covered_cons a l1 _).mpr (Or.inl ⟨by omega, by omega⟩))
  rcases (covered_cons b l2 _).mp hmid with hin | hin
  · have := hin.2
    omega
  · have := covered_tail_gt h2 hin
    omega

theorem normalized_unique (l1 : List DayRange) :
    ∀ l2 : List DayRange, Normalized l1 → Normalized l2 →
      (∀ d, Covered l1 d ↔ Covered l2 d) → l1 = l2 := by
  induction l1 with
  | nil =>
    intro l2 _ h2 hc
    cases l2 with
    | nil => rfl
    | cons b l2 =>
      have hb : b.start ≤ b.end_ := h2.1 b (List.mem_cons_self _ _)
      exact absurd ((hc b.start).mpr ((covered_cons b l2 _).mpr (Or.inl ⟨le_refl _, hb⟩)))
        (covered_nil _)
  | cons a l1 ih =>
    intro l2 h1 h2 hc
    cases l2 with
    | nil =>
      have ha : a.start ≤ a.end_ := h1.1 a (List.mem_cons_self _ _)
      exact absurd ((hc a.start).mp ((covered_cons a l1 _).mpr (Or.inl ⟨le_refl _, ha⟩)))
        (covered_nil _)
    | cons b l2 =>
      have hs1 := normalized_head_start_le h1 h2 fun d => (hc d).mp
      have hs2 := normalized_head_start_le h2 h1 fun d => (hc d).mpr
      have hst : a.start = b.start := le_antisymm hs2 hs1
      have he1 := normalized_head_end_le h1 h2 hst fun d => (hc d).mp
      have he2 := normalized_head_end_le h2 h1 hst.symm fun d => (hc d).mpr
      have heq : a = b := by
        cases a
        cases b
        simp only [DayRange.mk.injEq]
        simp only at hst he1 he2
        omega
      subst heq
      have htail : ∀ d, Covered l1 d ↔ Covered l2 d := by
        intro d
        constructor
        · intro hd
          have hgt := covered_tail_gt h1 hd
          rcases (covered_cons a l2 d).mp ((hc d).mp ((covered_cons a l1 d).mpr (Or.inr hd)))
            with hin | hin
          · have := hin.2
            omega
          · exact hin
        · intro hd
          have hgt := covered_tail_gt h2 hd
          rcases (covered_cons a l1 d).mp ((hc d).mpr ((covered_cons a l2 d).mpr (Or.inr hd)))
            with hin | hin
          · have := hin.2
            omega
          · exact hin
      rw [ih l2 (normalized_tail h1) (normalized_tail h2) htail]

/-! ## The weekend scan: iterations and whole weeks -/

theorem iterate_weekendBody_currentDate (norm : List DayRange) (i : Nat) (st : WeekendScan) :
    ((weekendBody norm)^[i] st).currentDate = st.currentDate + i := by
  induction i with
  | zero => simp
  | succ i ih =>
    rw [Function.iterate_succ_apply', weekendBody]
    simp only [ih]
    push_cast
    omega

theorem weekendLoop_eq_iterate (end_ : Int) (norm : List DayRange) :
    ∀ (n : Nat) (st : WeekendScan), (end_ - st.currentDate + 1).toNat = n →
      weekendLoop end_ norm st = ((weekendBody norm)^[n] st).weekendCount := by
  intro n
  induction n with
  | zero =>
    intro st hn
    have hlt : ¬ st.currentDate ≤ end_ := by omega
    rw [weekendLoop, if_neg hlt]
    rfl
  | succ n ih =>
    intro st hn
    have hle : st.currentDate ≤ end_ := by omega
    rw [weekendLoop, if_pos hle, ih (weekendBody norm st) (by simp only [weekendBody]; omega),
      Function.iterate_succ_apply]

theorem weekend_card_week (a : Int) :
    ((Finset.Icc a (a + 6)).filter fun d => IsWeekend d).card = 2 := by
  have hpair : ((Finset.Icc a (a + 6)).filter fun d => IsWeekend d) =
      {a + (3 - a) % 7, a + (2 - a) % 7} := by
    ext d
    simp only [Finset.mem_filter, Finset.mem_Icc, IsWeekend, dayOfWeek, Finset.mem_insert,
      Finset.mem_singleton]
    omega
  rw [hpair, Finset.card_pair (by omega)]

theorem weekend_card_weeks (a : Int) (k : Nat) :
    ((Finset.Icc a (a + 7 * (k : Int) - 1)).filter fun d => IsWeekend d).card = 2 * k := by
  induction k with
  | zero =>
    rw [Finset.Icc_eq_empty (by simp)]
    rfl
  | succ k ih =>
    have hsplit : Finset.Icc a (a + 7 * ((k + 1 : Nat) : Int) - 1) =
        Finset.Icc a (a + 7 * (k : Int) - 1) ∪
          Finset.Icc (a + 7 * (k : Int)) (a + 7 * (k : Int) + 6) := by
      ext d
      simp only [Finset.mem_union, Finset.mem_Icc]
      push_cast
      omega
    have hdisj : Disjoint (Finset.Icc a (a + 7 * (k : Int) - 1))
        (Finset.Icc (a + 7 * (k : Int)) (a + 7 * (k : Int) + 6)) := by
      rw [Finset.disjoint_left]
      intro d h1 h2
      rw [Finset.mem_Icc] at h1 h2
      omega
    rw [hsplit, Finset.filter_union,
      Finset.card_union_of_disjoint (Finset.disjoint_filter_filter hdisj), ih,
      weekend_card_week]
    omega

theorem weekendLoop_no_blocked_weeks (a : Int) (k : Nat) :
    weekendLoop (a + 7 * (k : Int) - 1) [] { currentDate := a, weekendCount := 0 } = 2 * k := by
  rw [weekendLoop_eq_card _ _ _ _ rfl, Nat.zero_add, ← weekend_card_weeks a k]
  congr 1
  apply Finset.filter_congr
  intro d _
  simp [covered_nil]

/-! ## The claims -/

/-- C1: `calculateBlockedDays(start, end, ranges)` is the number of distinct calendar days of the
window `[start, end]` that lie in at least one valid range of the list (both endpoints present
and parseable, end day not before start day), whatever the order and overlaps of the list; no
day is counted twice.  The window 2026-01-01..2026-01-31 with the single range
2026-01-10..2026-01-15 gives 6. -/
theorem calculateBlockedDays_counts_distinct_days :
    (∀ (s e : Dayjs) (ranges : List BlockedRange),
      calculateBlockedDays (.valid s) (.valid e) (some ranges) =
        (((Finset.Icc s.day e.day).filter fun d => InValidRange ranges d).card : Int)) ∧
    calculateBlockedDays (.valid (ymd 2026 1 1)) (.valid (ymd 2026 1 31))
      (some [⟨.valid (ymd 2026 1 10), .valid (ymd 2026 1 15)⟩]) = 6 := by
  refine ⟨fun s e ranges => ?_, by decide⟩
  simp only [calculateBlockedDays]
  rw [foldl_blockedStep s.day e.day _ 0 (normalize_normalized _), Int.zero_add]
  congr 2
  apply Finset.filter_congr
  intro d _
  exact covered_normalize ranges d

/-- C2: the output of `normalizeBlockedRanges` is sorted ascending by start (strictly), every
output range has `end >= start`, and consecutive output ranges are disjoint and non-adjacent:
`merged[i].end + 1 < merged[i+1].start` for every index `i`. -/
theorem normalizeBlockedRanges_sorted_disjoint (blockedRanges : Option (List BlockedRange)) :
    (normalizeBlockedRanges blockedRanges).Pairwise (fun a b => a.start < b.start) ∧
    (∀ r ∈ normalizeBlockedRanges blockedRanges, r.end_ ≥ r.start) ∧
    ∀ (i : Nat) (h : i + 1 < (normalizeBlockedRanges blockedRanges).length),
      ((normalizeBlockedRanges blockedRanges).get ⟨i, Nat.lt_of_succ_lt h⟩).end_ + 1 <
        ((normalizeBlockedRanges blockedRanges).get ⟨i + 1, h⟩).start := by
  have hn := normalize_normalized blockedRanges
  refine ⟨normalized_sorted hn, hn.1, fun i h => ?_⟩
  exact List.pairwise_iff_get.mp hn.2 ⟨i, Nat.lt_of_succ_lt h⟩ ⟨i + 1, h⟩ (Nat.lt_succ_self i)

/-- Witness of C2: three unsorted, overlapping ranges normalize to two ranges with a free day
between them. -/
theorem normalizeBlockedRanges_sorted_disjoint_witness :
    normalizeBlockedRanges (some [⟨.valid (ymd 2026 1 8), .valid (ymd 2026 1 10)⟩,
        ⟨.valid (ymd 2026 1 3), .valid (ymd 2026 1 5)⟩,
        ⟨.valid (ymd 2026 1 1), .valid (ymd 2026 1 4)⟩]) =
      [⟨(ymd 2026 1 1).day, (ymd 2026 1 5).day⟩, ⟨(ymd 2026 1 8).day, (ymd 2026 1 10).day⟩] ∧
    (ymd 2026 1 5).day + 1 < (ymd 2026 1 8).day := by
  have h := (normalizeBlockedRanges_sorted_disjoint
    (some [⟨.valid (ymd 2026 1 8), .valid (ymd 2026 1 10)⟩,
        ⟨.valid (ymd 2026 1 3), .valid (ymd 2026 1 5)⟩,
        ⟨.valid (ymd 2026 1 1), .valid (ymd 2026 1 4)⟩])).2.2 0 (by decide)
  exact ⟨by decide, h⟩

/-- C3: `normalizeBlockedRanges` is idempotent: normalizing its own output (the ranges handed
back as `dayjs` values) returns the same ranges in the same order. -/
theorem normalizeBlockedRanges_idempotent (blockedRanges : Option (List BlockedRange)) :
    normalizeBlockedRanges
        (some ((normalizeBlockedRanges blockedRanges).map DayRange.toInput)) =
      normalizeBlockedRanges blockedRanges :=
  normalize_fixed (normalize_normalized blockedRanges)

/-- C4: normalization neither gains nor loses blocked days: a day is blocked by the normalized
list (`isDateBlocked`, inclusive at both ends) exactly when it lies in some range of the input
whose two endpoints are present and parse and whose end day is not before its start day. -/
theorem isDateBlocked_normalize_iff (ranges : List BlockedRange) (d : Int) :
    isDateBlocked d (normalizeBlockedRanges (some ranges)) = true ↔
      ∃ r ∈ ranges, ∃ s e : Dayjs, r.start = .valid s ∧ r.end_ = .valid e ∧
        s.day ≤ e.day ∧ s.day ≤ d ∧ d ≤ e.day := by
  rw [isDateBlocked_iff, covered_normalize, inValidRange_iff]

/-- C5: adjacency merge rule.  Two valid ranges `r1`, `r2` with `r1.start <= r2.start` normalize
to the single range `[r1.start, max(r1.end, r2.end)]` when `r2.start <= r1.end + 1 day`, and to
the two ranges unchanged (at day granularity) otherwise. -/
theorem normalizeBlockedRanges_pair (s1 e1 s2 e2 : Dayjs) (h1 : s1.day ≤ e1.day)
    (h2 : s2.day ≤ e2.day) (h12 : s1.day ≤ s2.day) :
    normalizeBlockedRanges (some [⟨.valid s1, .valid e1⟩, ⟨.valid s2, .valid e2⟩]) =
      if s2.day ≤ e1.day + 1 then [⟨s1.day, max e1.day e2.day⟩]
      else [⟨s1.day, e1.day⟩, ⟨s2.day, e2.day⟩] := by
  have hs : startLE ⟨s1.day, e1.day⟩ ⟨s2.day, e2.day⟩ := h12
  simp only [normalizeBlockedRanges, toValidRange, List.filterMap_cons, List.filterMap_nil, ge_iff_le,
    h1, h2, if_true, List.insertionSort, List.orderedInsert, hs, List.foldl_cons, List.foldl_nil,
    mergeStep, List.getLast?_singleton, List.dropLast_single, List.nil_append]
  split_ifs with ha hb
  · rw [max_eq_right (le_of_lt hb)]
  · rw [max_eq_left (not_lt.mp hb)]
  · rfl

/-- Witness of C5: `[Jan 1, Jan 5]` and `[Jan 6, Jan 10]` give the single range
`[Jan 1, Jan 10]`; `[Jan 1, Jan 5]` and `[Jan 8, Jan 10]` stay two ranges. -/
theorem normalizeBlockedRanges_pair_witness :
    normalizeBlockedRanges (some [⟨.valid (ymd 2026 1 1), .valid (ymd 2026 1 5)⟩,
        ⟨.valid (ymd 2026 1 6), .valid (ymd 2026 1 10)⟩]) =
      [⟨(ymd 2026 1 1).day, (ymd 2026 1 10).day⟩] ∧
    normalizeBlockedRanges (some [⟨.valid (ymd 2026 1 1), .valid (ymd 2026 1 5)⟩,
        ⟨.valid (ymd 2026 1 8), .valid (ymd 2026 1 10)⟩]) =
      [⟨(ymd 2026 1 1).day, (ymd 2026 1 5).day⟩, ⟨(ymd 2026 1 8).day, (ymd 2026 1 10).day⟩] := by
  constructor
  · rw [normalizeBlockedRanges_pair (ymd 2026 1 1) (ymd 2026 1 5) (ymd 2026 1 6) (ymd 2026 1 10)
      (by decide) (by decide) (by decide)]
    decide
  · rw [normalizeBlockedRanges_pair (ymd 2026 1 1) (ymd 2026 1 5) (ymd 2026 1 8) (ymd 2026 1 10)
      (by decide) (by decide) (by decide)]
    decide

/-- C6: `calculateWeekendDays(start, end, ranges)` is the number of days of the window
`[start, end]` that are a Saturday or a Sunday and lie in no valid blocked range; a Saturday or
Sunday inside a blocked range is never counted. -/
theorem calculateWeekendDays_counts_unblocked_weekends (s e : Dayjs)
    (ranges : List BlockedRange) :
    calculateWeekendDays (.valid s) (.valid e) (some ranges) =
      ((Finset.Icc s.day e.day).filter fun d => IsWeekend d ∧ ¬ InValidRange ranges d).card := by
  simp only [calculateWeekendDays]
  rw [weekendLoop_eq_card e.day _ _ _ rfl, Nat.zero_add]
  congr 1
  apply Finset.filter_congr
  intro d _
  rw [covered_normalize]

/-- C7 (fails on the code): with the window 2026-01-20..2026-01-30, no blocked range and the
holiday list `['2026-01-26', '2026-01-26']`, `calculateHolidayDays` returns 2 although the list
names a single distinct holiday date in the window: every entry is counted, duplicates
included. -/
theorem calculateHolidayDays_counts_duplicates :
    calculateHolidayDays (.valid (ymd 2026 1 20)) (.valid (ymd 2026 1 30)) (some [])
        (.list [some (ymd 2026 1 26), some (ymd 2026 1 26)]) = 2 ∧
    (holidaySet (ymd 2026 1 20).day (ymd 2026 1 30).day []
        [some (ymd 2026 1 26), some (ymd 2026 1 26)]).card = 1 := by
  constructor <;> decide

/-- C8: blocked dominates holiday.  A holiday entry whose date lies in some valid blocked range
contributes nothing to `calculateHolidayDays`: the result is the one obtained on the holiday list
with the blocked dates removed, with the same blocked set and with none.  For the window
2026-01-20..2026-01-30, the blocked range 2026-01-26..2026-01-26 and the default holidays,
holidayDays is 0 and blockedDays is 1. -/
theorem calculateHolidayDays_blocked_dominates :
    (∀ (startDate endDate : DateInput) (ranges : List BlockedRange)
        (hs : List (Option Dayjs)),
      calculateHolidayDays startDate endDate (some ranges) (.list hs) =
          calculateHolidayDays startDate endDate (some ranges)
            (.list (hs.filter fun h => ¬ HolidayBlocked ranges h)) ∧
      calculateHolidayDays startDate endDate (some ranges) (.list hs) =
          calculateHolidayDays startDate endDate (some [])
            (.list (hs.filter fun h => ¬ HolidayBlocked ranges h))) ∧
    calculateHolidayDays (.valid (ymd 2026 1 20)) (.valid (ymd 2026 1 30))
        (some [⟨.valid (ymd 2026 1 26), .valid (ymd 2026 1 26)⟩]) .omitted = 0 ∧
    calculateBlockedDays (.valid (ymd 2026 1 20)) (.valid (ymd 2026 1 30))
        (some [⟨.valid (ymd 2026 1 26), .valid (ymd 2026 1 26)⟩]) = 1 := by
  refine ⟨fun startDate endDate ranges hs => ?_, by decide, by decide⟩
  by_cases hv : ∃ s e : Dayjs, startDate = .valid s ∧ endDate = .valid e
  · obtain ⟨s, e, rfl, rfl⟩ := hv
    simp only [calculateHolidayDays_valid]
    refine ⟨(countP_holiday_filter _ _ ranges _ (fun _ hc => hc) hs).symm,
      (countP_holiday_filter _ _ ranges _ (fun d hc => ?_) hs).symm⟩
    exact absurd hc (by simp [normalizeBlockedRanges, Covered])
  · have hne : ∀ s e : Dayjs, ¬ (startDate = .valid s ∧ endDate = .valid e) :=
      fun s e h => hv ⟨s, e, h⟩
    simp only [calculateHolidayDays_not_valid startDate endDate hne, and_self]

/-- C9: for present, parseable dates `calculateTotalDays(start, end)` is the difference of the
two calendar days plus one, whatever the times of day; it is 1 when both fall on the same
calendar day and at least 1 when the end day is not before the start day. -/
theorem calculateTotalDays_inclusive (s e : Dayjs) :
    calculateTotalDays (.valid s) (.valid e) = some (e.day - s.day + 1) ∧
    (s.day = e.day → calculateTotalDays (.valid s) (.valid e) = some 1) ∧
    (s.day ≤ e.day → ∃ n : Int, calculateTotalDays (.valid s) (.valid e) = some n ∧ 1 ≤ n) := by
  refine ⟨rfl, fun h => ?_, fun h => ⟨e.day - s.day + 1, rfl, by omega⟩⟩
  simp only [calculateTotalDays, h]
  congr 1
  omega

/-- Witness of C9: 2026-01-01 08:00 to 2026-01-01 17:30 is one day, and 2026-01-01 to 2026-01-10
is ten days. -/
theorem calculateTotalDays_inclusive_witness :
    calculateTotalDays (.valid ⟨20454, 28800000⟩) (.valid ⟨20454, 63000000⟩) = some 1 ∧
    ∃ n : Int, calculateTotalDays (.valid (ymd 2026 1 1)) (.valid (ymd 2026 1 10)) = some n ∧
      1 ≤ n :=
  ⟨(calculateTotalDays_inclusive ⟨20454, 28800000⟩ ⟨20454, 63000000⟩).2.1 rfl,
    (calculateTotalDays_inclusive (ymd 2026 1 1) (ymd 2026 1 10)).2.2 (by decide)⟩

/-- C10 as stated fails: for the inverted window 2026-01-10..2026-01-01 `calculateTotalDays`
returns -8, not 0. -/
theorem calculateTotalDays_inverted_negative :
    (ymd 2026 1 1).day < (ymd 2026 1 10).day ∧
    calculateTotalDays (.valid (ymd 2026 1 10)) (.valid (ymd 2026 1 1)) = some (-8) ∧
    calculateTotalDays (.valid (ymd 2026 1 10)) (.valid (ymd 2026 1 1)) ≠ some 0 := by
  decide

/-- C10 amended: when the end day is strictly before the start day, `calculateBlockedDays`,
`calculateWeekendDays` and `calculateHolidayDays` return 0 for every blocked set and holiday
list, while `calculateTotalDays` returns the day difference plus one, which is at most 0; the
two metrics derived from these values are 0. -/
theorem inverted_window_counts (s e : Dayjs) (h : e.day < s.day)
    (blockedRanges : Option (List BlockedRange)) (hol : HolidaysArg) :
    calculateBlockedDays (.valid s) (.valid e) blockedRanges = 0 ∧
    calculateWeekendDays (.valid s) (.valid e) blockedRanges = 0 ∧
    calculateHolidayDays (.valid s) (.valid e) blockedRanges hol = 0 ∧
    calculateTotalDays (.valid s) (.valid e) = some (e.day - s.day + 1) ∧
    e.day - s.day + 1 ≤ 0 ∧
    calculateAgeOfIssue (.valid s) (.valid e) 0 0 = some 0 ∧
    calculateTimeToResolve (e.day - s.day + 1) 0 0 0 = 0 := by
  have hempty : Finset.Icc s.day e.day = ∅ := Finset.Icc_eq_empty (by omega)
  refine ⟨?_, ?_, ?_, rfl, by omega, ?_, ?_⟩
  · simp only [calculateBlockedDays]
    rw [foldl_blockedStep s.day e.day _ 0 (normalize_normalized _), hempty]
    simp
  · simp only [calculateWeekendDays]
    rw [weekendLoop_eq_card e.day _ _ _ rfl, hempty]
    simp
  · have hz : ∀ hs : List (Option Dayjs),
        holidayCountOf (.valid s) (.valid e) blockedRanges hs = 0 := by
      intro hs
      rw [holidayCountOf_valid, List.countP_eq_zero]
      intro x _
      simp [holidayCounts_of_empty_window h]
    rcases hol with _ | _ | (_ | _) <;> simp [calculateHolidayDays, hz]
  · simp only [calculateAgeOfIssue, calculateTotalDays, Option.map_some']
    congr 1
    omega
  · simp only [calculateTimeToResolve]
    omega

/-- Witness of C10 amended: the window 2026-01-10..2026-01-01 with one blocked range and the
default holidays. -/
theorem inverted_window_counts_witness :
    (ymd 2026 1 1).day < (ymd 2026 1 10).day ∧
    calculateBlockedDays (.valid (ymd 2026 1 10)) (.valid (ymd 2026 1 1))
      (some [⟨.valid (ymd 2026 1 2), .valid (ymd 2026 1 5)⟩]) = 0 ∧
    calculateWeekendDays (.valid (ymd 2026 1 10)) (.valid (ymd 2026 1 1))
      (some [⟨.valid (ymd 2026 1 2), .valid (ymd 2026 1 5)⟩]) = 0 ∧
    calculateHolidayDays (.valid (ymd 2026 1 10)) (.valid (ymd 2026 1 1))
      (some [⟨.valid (ymd 2026 1 2), .valid (ymd 2026 1 5)⟩]) .omitted = 0 ∧
    calculateTotalDays (.valid (ymd 2026 1 10)) (.valid (ymd 2026 1 1)) =
      some ((ymd 2026 1 1).day - (ymd 2026 1 10).day + 1) :=
  have h := inverted_window_counts (ymd 2026 1 10) (ymd 2026 1 1) (by decide)
    (some [⟨.valid (ymd 2026 1 2), .valid (ymd 2026 1 5)⟩]) .omitted
  ⟨by decide, h.1, h.2.1, h.2.2.1, h.2.2.2.1⟩

/-- C11 as stated fails: for the week 2026-03-09..2026-03-15 with no blocked range and the
duplicate-free default holiday list, 2026-03-14 is both a holiday and a Saturday and is
subtracted twice, so Time to Resolve is 4 although the window has 5 business days. -/
theorem timeToResolve_weekend_holiday_counterexample :
    (ymd 2026 3 9).day ≤ (ymd 2026 3 15).day ∧
    (holidayDayList DEFAULT_HOLIDAYS).Nodup ∧
    (calculateTotalDays (.valid (ymd 2026 3 9)) (.valid (ymd 2026 3 15))).map (fun t =>
      calculateTimeToResolve t
        (calculateBlockedDays (.valid (ymd 2026 3 9)) (.valid (ymd 2026 3 15)) (some []))
        (calculateHolidayDays (.valid (ymd 2026 3 9)) (.valid (ymd 2026 3 15)) (some [])
          (.list DEFAULT_HOLIDAYS))
        (calculateWeekendDays (.valid (ymd 2026 3 9)) (.valid (ymd 2026 3 15)) (some []))) =
      some 4 ∧
    (businessDays (ymd 2026 3 9).day (ymd 2026 3 15).day [] DEFAULT_HOLIDAYS).card = 5 := by
  refine ⟨by decide, by decide, ?_, by decide⟩
  rw [calculateWeekendDays_card]
  decide

/-- C11 amended: for a window `start <= end`, any blocked set and a duplicate-free holiday list,
Time to Resolve computed from the module's totalDays, blockedDays, holidayDays and weekendDays
is the number of business days (not blocked, not a holiday, not a Saturday or Sunday) minus the
number of unblocked window days that are a holiday and a Saturday or Sunday at once, floored at
0; it equals the number of business days when no unblocked holiday of the window falls on a
Saturday or Sunday. -/
theorem timeToResolve_business_days (s e : Dayjs) (hse : s.day ≤ e.day)
    (ranges : List BlockedRange) (hs : List (Option Dayjs))
    (hnd : (holidayDayList hs).Nodup) :
    (calculateTotalDays (.valid s) (.valid e)).map (fun t =>
      calculateTimeToResolve t
        (calculateBlockedDays (.valid s) (.valid e) (some ranges))
        (calculateHolidayDays (.valid s) (.valid e) (some ranges) (.list hs))
        (calculateWeekendDays (.valid s) (.valid e) (some ranges))) =
      some (max 0 (((businessDays s.day e.day ranges hs).card : Int)
        - ((weekendHolidays s.day e.day ranges hs).card : Int))) ∧
    (weekendHolidays s.day e.day ranges hs = ∅ →
      (calculateTotalDays (.valid s) (.valid e)).map (fun t =>
        calculateTimeToResolve t
          (calculateBlockedDays (.valid s) (.valid e) (some ranges))
          (calculateHolidayDays (.valid s) (.valid e) (some ranges) (.list hs))
          (calculateWeekendDays (.valid s) (.valid e) (some ranges))) =
        some ((businessDays s.day e.day ranges hs).card : Int)) := by
  have hbal := metrics_balance s e hse ranges hs hnd
  have hmain : (calculateTotalDays (.valid s) (.valid e)).map (fun t =>
      calculateTimeToResolve t
        (calculateBlockedDays (.valid s) (.valid e) (some ranges))
        (calculateHolidayDays (.valid s) (.valid e) (some ranges) (.list hs))
        (calculateWeekendDays (.valid s) (.valid e) (some ranges))) =
      some (max 0 (((businessDays s.day e.day ranges hs).card : Int)
        - ((weekendHolidays s.day e.day ranges hs).card : Int))) := by
    simp only [calculateTotalDays, Option.map_some', calculateTimeToResolve]
    rw [hbal]
  refine ⟨hmain, fun hno => ?_⟩
  rw [hmain, hno, Finset.card_empty, Nat.cast_zero, sub_zero,
    max_eq_right (Int.natCast_nonneg _)]

/-- Witness of C11 amended: the window 2026-01-19..2026-01-30 with the blocked range
2026-01-21..2026-01-22 and the default holidays (Republic Day, a Monday) has 7 business days. -/
theorem timeToResolve_business_days_witness :
    (ymd 2026 1 19).day ≤ (ymd 2026 1 30).day ∧
    (holidayDayList DEFAULT_HOLIDAYS).Nodup ∧
    weekendHolidays (ymd 2026 1 19).day (ymd 2026 1 30).day
      [⟨.valid (ymd 2026 1 21), .valid (ymd 2026 1 22)⟩] DEFAULT_HOLIDAYS = ∅ ∧
    (calculateTotalDays (.valid (ymd 2026 1 19)) (.valid (ymd 2026 1 30))).map (fun t =>
      calculateTimeToResolve t
        (calculateBlockedDays (.valid (ymd 2026 1 19)) (.valid (ymd 2026 1 30))
          (some [⟨.valid (ymd 2026 1 21), .valid (ymd 2026 1 22)⟩]))
        (calculateHolidayDays (.valid (ymd 2026 1 19)) (.valid (ymd 2026 1 30))
          (some [⟨.valid (ymd 2026 1 21), .valid (ymd 2026 1 22)⟩]) (.list DEFAULT_HOLIDAYS))
        (calculateWeekendDays (.valid (ymd 2026 1 19)) (.valid (ymd 2026 1 30))
          (some [⟨.valid (ymd 2026 1 21), .valid (ymd 2026 1 22)⟩]))) =
      some ((businessDays (ymd 2026 1 19).day (ymd 2026 1 30).day
        [⟨.valid (ymd 2026 1 21), .valid (ymd 2026 1 22)⟩] DEFAULT_HOLIDAYS).card : Int) ∧
    (businessDays (ymd 2026 1 19).day (ymd 2026 1 30).day
        [⟨.valid (ymd 2026 1 21), .valid (ymd 2026 1 22)⟩] DEFAULT_HOLIDAYS).card = 7 :=
  ⟨by decide, by decide, by decide,
    (timeToResolve_business_days (ymd 2026 1 19) (ymd 2026 1 30) (by decide)
      [⟨.valid (ymd 2026 1 21), .valid (ymd 2026 1 22)⟩] DEFAULT_HOLIDAYS (by decide)).2
      (by decide),
    by decide⟩

/-- C12 as stated fails: with a start date that is present but does not parse,
`calculateTotalDays` is `NaN` and so is `calculateAgeOfIssue`, which is then not a number that is
at least 0. -/
theorem ageOfIssue_unparseable_date :
    calculateTotalDays .invalid (.valid (ymd 2026 1 10)) = none ∧
    calculateAgeOfIssue .invalid (.valid (ymd 2026 1 10)) 0 0 = none ∧
    ¬ ∃ a : Int, calculateAgeOfIssue .invalid (.valid (ymd 2026 1 10)) 0 0 = some a ∧ 0 ≤ a := by
  refine ⟨rfl, rfl, ?_⟩
  rintro ⟨a, ha, _⟩
  have hnone : calculateAgeOfIssue .invalid (.valid (ymd 2026 1 10)) 0 0 = none := rfl
  rw [hnone] at ha
  exact Option.noConfusion ha

/-- C12 amended: both headline metrics are floored at zero on dates that are absent or parse.
When a date is absent, or both dates parse, and for all integer counts `b`, `h`, `w` (also with
`b + h` larger than the total), `calculateAgeOfIssue(start, end, b, h)` is
`max(0, calculateTotalDays(start, end) - b - h)`, which is not negative; when both dates are
present and one does not parse, `calculateTotalDays` and `calculateAgeOfIssue` are `NaN`.
`calculateTimeToResolve(t, b, h, w)` is `max(0, t - b - h - w)`, which is not negative, for all
integers. -/
theorem metrics_floored_at_zero (startDate endDate : DateInput) (t b h w : Int) :
    (startDate = .absent ∨ endDate = .absent ∨
        (startDate ≠ .invalid ∧ endDate ≠ .invalid) →
      ∃ total : Int, calculateTotalDays startDate endDate = some total ∧
        calculateAgeOfIssue startDate endDate b h = some (max 0 (total - b - h)) ∧
        0 ≤ max 0 (total - b - h)) ∧
    (startDate ≠ .absent → endDate ≠ .absent →
        startDate = .invalid ∨ endDate = .invalid →
      calculateTotalDays startDate endDate = none ∧
        calculateAgeOfIssue startDate endDate b h = none) ∧
    calculateTimeToResolve t b h w = max 0 (t - b - h - w) ∧
    0 ≤ calculateTimeToResolve t b h w := by
  refine ⟨?_, ?_, rfl, le_max_left _ _⟩
  · intro hok
    cases startDate with
    | absent => exact ⟨0, by cases endDate <;> rfl, by cases endDate <;> rfl, le_max_left _ _⟩
    | invalid =>
      cases endDate with
      | absent => exact ⟨0, rfl, rfl, le_max_left _ _⟩
      | invalid => rcases hok with h1 | h1 | h1 <;> simp at h1
      | valid e => rcases hok with h1 | h1 | h1 <;> simp at h1
    | valid s =>
      cases endDate with
      | absent => exact ⟨0, rfl, rfl, le_max_left _ _⟩
      | invalid => rcases hok with h1 | h1 | h1 <;> simp at h1
      | valid e => exact ⟨e.day - s.day + 1, rfl, rfl, le_max_left _ _⟩
  · intro h1 h2 h3
    cases startDate with
    | absent => exact absurd rfl h1
    | invalid =>
      cases endDate with
      | absent => exact absurd rfl h2
      | invalid => exact ⟨rfl, rfl⟩
      | valid e => exact ⟨rfl, rfl⟩
    | valid s =>
      cases endDate with
      | absent => exact absurd rfl h2
      | invalid => exact ⟨rfl, rfl⟩
      | valid e => rcases h3 with h3 | h3 <;> simp at h3

/-- Witness of C12 amended: a ten-day window with 8 blocked and 5 holiday days gives age 0,
`calculateTimeToResolve(10, 8, 5, 3)` is 0, and a ten-day window whose start does not parse gives
`NaN`. -/
theorem metrics_floored_at_zero_witness :
    calculateAgeOfIssue (.valid (ymd 2026 1 1)) (.valid (ymd 2026 1 10)) 8 5 = some 0 ∧
    calculateTimeToResolve 10 8 5 3 = 0 ∧
    (∃ total : Int, calculateTotalDays (.valid (ymd 2026 1 1)) (.valid (ymd 2026 1 10)) =
      some total ∧
      calculateAgeOfIssue (.valid (ymd 2026 1 1)) (.valid (ymd 2026 1 10)) 8 5 =
        some (max 0 (total - 8 - 5)) ∧ 0 ≤ max 0 (total - 8 - 5)) ∧
    calculateAgeOfIssue .invalid (.valid (ymd 2026 1 10)) 8 5 = none :=
  ⟨by decide, by decide,
    (metrics_floored_at_zero (.valid (ymd 2026 1 1)) (.valid (ymd 2026 1 10)) 10 8 5 3).1
      (Or.inr (Or.inr ⟨by decide, by decide⟩)),
    ((metrics_floored_at_zero .invalid (.valid (ymd 2026 1 10)) 10 8 5 3).2.1
      (by decide) (by decide) (Or.inl rfl)).2⟩

/-- C13: window clipping.  Adding to the blocked set a range that lies wholly outside the window
(it ends before the start day or starts after the end day) leaves `calculateBlockedDays`,
`calculateWeekendDays` and `calculateHolidayDays` unchanged, and adding to the holiday list a
date outside the window leaves `calculateHolidayDays` unchanged (the other two counters do not
take the holiday list). -/
theorem window_clipping (s e : Dayjs) (l1 l2 : List BlockedRange) (rs re : Dayjs)
    (hout : re.day < s.day ∨ e.day < rs.day) (hol : HolidaysArg)
    (h1 h2 : List (Option Dayjs)) (x : Dayjs) (hx : x.day < s.day ∨ e.day < x.day) :
    calculateBlockedDays (.valid s) (.valid e) (some (l1 ++ ⟨.valid rs, .valid re⟩ :: l2)) =
      calculateBlockedDays (.valid s) (.valid e) (some (l1 ++ l2)) ∧
    calculateWeekendDays (.valid s) (.valid e) (some (l1 ++ ⟨.valid rs, .valid re⟩ :: l2)) =
      calculateWeekendDays (.valid s) (.valid e) (some (l1 ++ l2)) ∧
    calculateHolidayDays (.valid s) (.valid e) (some (l1 ++ ⟨.valid rs, .valid re⟩ :: l2)) hol =
      calculateHolidayDays (.valid s) (.valid e) (some (l1 ++ l2)) hol ∧
    calculateHolidayDays (.valid s) (.valid e) (some (l1 ++ l2)) (.list (h1 ++ some x :: h2)) =
      calculateHolidayDays (.valid s) (.valid e) (some (l1 ++ l2)) (.list (h1 ++ h2)) := by
  have hin : ∀ d ∈ Finset.Icc s.day e.day,
      (InValidRange (l1 ++ ⟨.valid rs, .valid re⟩ :: l2) d ↔ InValidRange (l1 ++ l2) d) := by
    intro d hd
    rw [Finset.mem_Icc] at hd
    exact inValidRange_insert_outside s.day e.day l1 l2 rs re hout d hd.1 hd.2
  refine ⟨?_, ?_, ?_, ?_⟩
  · rw [calculateBlockedDays_card, calculateBlockedDays_card]
    congr 2
    exact Finset.filter_congr hin
  · rw [calculateWeekendDays_card, calculateWeekendDays_card]
    congr 1
    apply Finset.filter_congr
    intro d hd
    rw [hin d hd]
  · apply calculateHolidayDays_congr
    intro d hd1 hd2
    rw [covered_normalize, covered_normalize]
    exact inValidRange_insert_outside s.day e.day l1 l2 rs re hout d hd1 hd2
  · rw [calculateHolidayDays_valid, calculateHolidayDays_valid, List.countP_append,
      List.countP_append, List.countP_cons_of_neg]
    have hw : ¬ (s.day ≤ x.day ∧ x.day ≤ e.day) := by omega
    simp [HolidayCounts, hw]

/-- Witness of C13: the window 2026-01-01..2026-01-31 with the blocked range
2026-01-10..2026-01-15; the added range 2026-02-01..2026-02-05 and the added holiday 2026-03-14
lie outside the window. -/
theorem window_clipping_witness :
    ((ymd 2026 2 5).day < (ymd 2026 1 1).day ∨ (ymd 2026 1 31).day < (ymd 2026 2 1).day) ∧
    calculateBlockedDays (.valid (ymd 2026 1 1)) (.valid (ymd 2026 1 31))
        (some ([⟨.valid (ymd 2026 1 10), .valid (ymd 2026 1 15)⟩] ++
          ⟨.valid (ymd 2026 2 1), .valid (ymd 2026 2 5)⟩ :: [])) =
      calculateBlockedDays (.valid (ymd 2026 1 1)) (.valid (ymd 2026 1 31))
        (some ([⟨.valid (ymd 2026 1 10), .valid (ymd 2026 1 15)⟩] ++ [])) ∧
    calculateHolidayDays (.valid (ymd 2026 1 1)) (.valid (ymd 2026 1 31))
        (some ([⟨.valid (ymd 2026 1 10), .valid (ymd 2026 1 15)⟩] ++ []))
        (.list ([some (ymd 2026 1 26)] ++ some (ymd 2026 3 14) :: [])) =
      calculateHolidayDays (.valid (ymd 2026 1 1)) (.valid (ymd 2026 1 31))
        (some ([⟨.valid (ymd 2026 1 10), .valid (ymd 2026 1 15)⟩] ++ []))
        (.list ([some (ymd 2026 1 26)] ++ [])) :=
  have h := window_clipping (ymd 2026 1 1) (ymd 2026 1 31)
    [⟨.valid (ymd 2026 1 10), .valid (ymd 2026 1 15)⟩] [] (ymd 2026 2 1) (ymd 2026 2 5)
    (by decide) .omitted [some (ymd 2026 1 26)] [] (ymd 2026 3 14) (by decide)
  ⟨by decide, h.1, h.2.2.2⟩

/-- C14 (fails on the code): for start 2026-01-05 17:30 and end 2026-01-05 09:00 both dates are
present, both parse and the end date is not before the start date, yet `validateDateRange`
reports invalid with `End date must be on or after start date`: the comparison is made on the
instants, not on the calendar days. -/
theorem validateDateRange_rejects_end_on_start_day :
    (validateDateRange (.valid { day := (ymd 2026 1 5).day, ms := 63000000 })
        (.valid { day := (ymd 2026 1 5).day, ms := 32400000 })).isValid = false ∧
    (validateDateRange (.valid { day := (ymd 2026 1 5).day, ms := 63000000 })
        (.valid { day := (ymd 2026 1 5).day, ms := 32400000 })).error =
      "End date must be on or after start date" ∧
    ¬ ((ymd 2026 1 5).day < (ymd 2026 1 5).day) ∧
    calculateTotalDays (.valid { day := (ymd 2026 1 5).day, ms := 63000000 })
        (.valid { day := (ymd 2026 1 5).day, ms := 32400000 }) = some 1 := by
  decide

/-- What `validateDateRange` does test: it reports valid exactly when both dates are present,
both parse, and the end instant is not before the start instant (`isBefore` at millisecond
granularity); the error text is empty exactly when the result is valid. -/
theorem validateDateRange_valid_iff (startDate endDate : DateInput) :
    ((validateDateRange startDate endDate).isValid = true ↔
      ∃ s e : Dayjs, startDate = .valid s ∧ endDate = .valid e ∧ e.isBefore s = false) ∧
    ((validateDateRange startDate endDate).error = "" ↔
      (validateDateRange startDate endDate).isValid = true) := by
  cases startDate with
  | absent => cases endDate <;> simp [validateDateRange]
  | invalid => cases endDate <;> simp [validateDateRange]
  | valid s =>
    cases endDate with
    | absent => simp [validateDateRange]
    | invalid => simp [validateDateRange]
    | valid e =>
      by_cases hb : e.isBefore s = true
      · simp [validateDateRange, hb]
      · simp [validateDateRange, hb]

/-- C15 as stated fails: the reasons are not the quoted texts.  The code returns
`Both dates are required`, `Invalid date format` and `End date must be on or after start date`,
capitalised and without a final period. -/
theorem validateDateRange_reason_texts :
    (validateDateRange .absent (.valid (ymd 2026 1 1))).error ≠ "both dates are required." ∧
    (validateDateRange .invalid (.valid (ymd 2026 1 1))).error ≠ "invalid date format." ∧
    (validateDateRange (.valid (ymd 2026 1 10)) (.valid (ymd 2026 1 1))).error ≠
      "end date must be on or after start date." := by
  decide

/-- C15 amended: `validateDateRange` reports the reason of the first failing check, in this
order: a missing start or end gives `Both dates are required`; otherwise a date that does not
parse gives `Invalid date format`; otherwise an end before the start gives
`End date must be on or after start date`. -/
theorem validateDateRange_first_failure (startDate endDate : DateInput) :
    (startDate = .absent ∨ endDate = .absent →
      validateDateRange startDate endDate =
        { isValid := false, error := "Both dates are required" }) ∧
    (startDate ≠ .absent → endDate ≠ .absent → startDate = .invalid ∨ endDate = .invalid →
      validateDateRange startDate endDate =
        { isValid := false, error := "Invalid date format" }) ∧
    (∀ s e : Dayjs, startDate = .valid s → endDate = .valid e → e.isBefore s = true →
      validateDateRange startDate endDate =
        { isValid := false, error := "End date must be on or after start date" }) := by
  refine ⟨?_, ?_, ?_⟩
  · rintro (rfl | rfl)
    · cases endDate <;> rfl
    · cases startDate <;> rfl
  · intro h1 h2 h3
    cases startDate with
    | absent => exact absurd rfl h1
    | invalid =>
      cases endDate with
      | absent => exact absurd rfl h2
      | invalid => rfl
      | valid e => rfl
    | valid s =>
      cases endDate with
      | absent => exact absurd rfl h2
      | invalid => rfl
      | valid e => rcases h3 with h3 | h3 <;> exact absurd h3 (by simp)
  · rintro s e rfl rfl hb
    simp [validateDateRange, hb]

/-- Witness of C15 amended: a missing end with an unparseable start reports the missing date, an
unparseable end reports the format, and 2026-01-10..2026-01-01 reports the order. -/
theorem validateDateRange_first_failure_witness :
    validateDateRange .invalid .absent =
      { isValid := false, error := "Both dates are required" } ∧
    validateDateRange (.valid (ymd 2026 1 1)) .invalid =
      { isValid := false, error := "Invalid date format" } ∧
    validateDateRange (.valid (ymd 2026 1 10)) (.valid (ymd 2026 1 1)) =
      { isValid := false, error := "End date must be on or after start date" } :=
  ⟨(validateDateRange_first_failure .invalid .absent).1 (Or.inr rfl),
    (validateDateRange_first_failure (.valid (ymd 2026 1 1)) .invalid).2.1
      (by decide) (by decide) (Or.inr rfl),
    (validateDateRange_first_failure (.valid (ymd 2026 1 10)) (.valid (ymd 2026 1 1))).2.2
      (ymd 2026 1 10) (ymd 2026 1 1) rfl rfl (by decide)⟩

/-- C16: missing input degrades to zero.  When the start date or the end date is absent, each of
`calculateTotalDays`, `calculateBlockedDays`, `calculateWeekendDays` and `calculateHolidayDays`
returns 0 whatever the other arguments are, and `normalizeBlockedRanges` returns the empty list
for an absent or empty range list. -/
theorem missing_input_zero (startDate endDate : DateInput)
    (h : startDate = .absent ∨ endDate = .absent)
    (blockedRanges : Option (List BlockedRange)) (hol : HolidaysArg) :
    calculateTotalDays startDate endDate = some 0 ∧
    calculateBlockedDays startDate endDate blockedRanges = 0 ∧
    calculateWeekendDays startDate endDate blockedRanges = 0 ∧
    calculateHolidayDays startDate endDate blockedRanges hol = 0 ∧
    normalizeBlockedRanges none = [] ∧
    normalizeBlockedRanges (some []) = [] := by
  refine ⟨?_, ?_, ?_, ?_, rfl, rfl⟩
  · rcases h with rfl | rfl
    · cases endDate <;> rfl
    · cases startDate <;> rfl
  · rcases h with rfl | rfl
    · cases endDate <;> rfl
    · cases startDate <;> rfl
  · rcases h with rfl | rfl
    · cases endDate <;> rfl
    · cases startDate <;> rfl
  · apply calculateHolidayDays_not_valid
    rintro s e ⟨h1, h2⟩
    rcases h with h | h
    · rw [h] at h1; exact absurd h1 (by simp)
    · rw [h] at h2; exact absurd h2 (by simp)

/-- Witness of C16: an absent end date with a present start date, one blocked range and the
default holidays. -/
theorem missing_input_zero_witness :
    calculateTotalDays (.valid (ymd 2026 1 1)) .absent = some 0 ∧
    calculateBlockedDays (.valid (ymd 2026 1 1)) .absent
      (some [⟨.valid (ymd 2026 1 2), .valid (ymd 2026 1 5)⟩]) = 0 ∧
    calculateWeekendDays (.valid (ymd 2026 1 1)) .absent
      (some [⟨.valid (ymd 2026 1 2), .valid (ymd 2026 1 5)⟩]) = 0 ∧
    calculateHolidayDays (.valid (ymd 2026 1 1)) .absent
      (some [⟨.valid (ymd 2026 1 2), .valid (ymd 2026 1 5)⟩]) .omitted = 0 :=
  have h := missing_input_zero (.valid (ymd 2026 1 1)) .absent (Or.inr rfl)
    (some [⟨.valid (ymd 2026 1 2), .valid (ymd 2026 1 5)⟩]) .omitted
  ⟨h.1, h.2.1, h.2.2.1, h.2.2.2.1⟩

/-- C17: Scenario A.  For issueStart 2026-01-01, issueEnd 2026-01-10, no blocked ranges and no
holidays the module computes totalDays 10, blockedDays 0, weekendDays 3 (Jan 3, 4 and 10),
holidayDays 0 (with an empty holiday list and with the default list alike), ageOfIssue 10 and
timeToResolve 7. -/
theorem scenario_A :
    calculateTotalDays (.valid (ymd 2026 1 1)) (.valid (ymd 2026 1 10)) = some 10 ∧
    calculateBlockedDays (.valid (ymd 2026 1 1)) (.valid (ymd 2026 1 10)) (some []) = 0 ∧
    calculateWeekendDays (.valid (ymd 2026 1 1)) (.valid (ymd 2026 1 10)) (some []) = 3 ∧
    ((Finset.Icc (ymd 2026 1 1).day (ymd 2026 1 10).day).filter fun d => IsWeekend d) =
      {(ymd 2026 1 3).day, (ymd 2026 1 4).day, (ymd 2026 1 10).day} ∧
    calculateHolidayDays (.valid (ymd 2026 1 1)) (.valid (ymd 2026 1 10)) (some [])
      (.list []) = 0 ∧
    calculateHolidayDays (.valid (ymd 2026 1 1)) (.valid (ymd 2026 1 10)) (some [])
      .omitted = 0 ∧
    calculateAgeOfIssue (.valid (ymd 2026 1 1)) (.valid (ymd 2026 1 10))
      (calculateBlockedDays (.valid (ymd 2026 1 1)) (.valid (ymd 2026 1 10)) (some []))
      (calculateHolidayDays (.valid (ymd 2026 1 1)) (.valid (ymd 2026 1 10)) (some [])
        (.list [])) = some 10 ∧
    (calculateTotalDays (.valid (ymd 2026 1 1)) (.valid (ymd 2026 1 10))).map (fun t =>
      calculateTimeToResolve t
        (calculateBlockedDays (.valid (ymd 2026 1 1)) (.valid (ymd 2026 1 10)) (some []))
        (calculateHolidayDays (.valid (ymd 2026 1 1)) (.valid (ymd 2026 1 10)) (some [])
          (.list []))
        (calculateWeekendDays (.valid (ymd 2026 1 1)) (.valid (ymd 2026 1 10)) (some []))) =
      some 7 := by
  rw [calculateWeekendDays_card]
  decide

/-- C18 (fails on the code): for start 2026-01-01 12:00 and end 2026-01-01 08:00, two values on
the same calendar day, `validateDateRange` reports invalid with `End date must be on or after
start date`, although `calculateTotalDays` of the pair is 1; with both values at midnight the
same day is valid. -/
theorem validateDateRange_same_day_invalid :
    validateDateRange (.valid { day := 20454, ms := 43200000 })
        (.valid { day := 20454, ms := 28800000 }) =
      { isValid := false, error := "End date must be on or after start date" } ∧
    calculateTotalDays (.valid { day := 20454, ms := 43200000 })
        (.valid { day := 20454, ms := 28800000 }) = some 1 ∧
    (ymd 2026 1 1).day = 20454 ∧
    validateDateRange (.valid (ymd 2026 1 1)) (.valid (ymd 2026 1 1)) =
      { isValid := true, error := "" } := by
  decide

/-- C20: the zero floor of Age of Issue is never active on consistent input.  For a window
`start <= end`, any blocked set and a duplicate-free holiday list,
`blockedDays + holidayDays <= totalDays` and `blockedDays + weekendDays <= totalDays`, so
`calculateAgeOfIssue` is exactly `totalDays - blockedDays - holidayDays`. -/
theorem age_floor_inactive (s e : Dayjs) (hse : s.day ≤ e.day) (ranges : List BlockedRange)
    (hs : List (Option Dayjs)) (hnd : (holidayDayList hs).Nodup) :
    ∃ totalDays : Int, calculateTotalDays (.valid s) (.valid e) = some totalDays ∧
      calculateBlockedDays (.valid s) (.valid e) (some ranges)
        + (calculateHolidayDays (.valid s) (.valid e) (some ranges) (.list hs) : Int) ≤
          totalDays ∧
      calculateBlockedDays (.valid s) (.valid e) (some ranges)
        + (calculateWeekendDays (.valid s) (.valid e) (some ranges) : Int) ≤ totalDays ∧
      calculateAgeOfIssue (.valid s) (.valid e)
          (calculateBlockedDays (.valid s) (.valid e) (some ranges))
          (calculateHolidayDays (.valid s) (.valid e) (some ranges) (.list hs)) =
        some (totalDays - calculateBlockedDays (.valid s) (.valid e) (some ranges)
          - (calculateHolidayDays (.valid s) (.valid e) (some ranges) (.list hs) : Int)) := by
  have h1 := blocked_add_holiday_le s e hse ranges hs hnd
  have h2 := blocked_add_weekend_le s e hse ranges
  refine ⟨e.day - s.day + 1, rfl, h1.2, h2, ?_⟩
  simp only [calculateAgeOfIssue, calculateTotalDays, Option.map_some']
  congr 1
  omega

/-- Witness of C20: the window 2026-01-01..2026-01-31 with the blocked range
2026-01-10..2026-01-15 and the default holidays: 6 blocked days and 1 holiday leave an age of 24
out of 31 days. -/
theorem age_floor_inactive_witness :
    (ymd 2026 1 1).day ≤ (ymd 2026 1 31).day ∧
    (holidayDayList DEFAULT_HOLIDAYS).Nodup ∧
    calculateAgeOfIssue (.valid (ymd 2026 1 1)) (.valid (ymd 2026 1 31))
        (calculateBlockedDays (.valid (ymd 2026 1 1)) (.valid (ymd 2026 1 31))
          (some [⟨.valid (ymd 2026 1 10), .valid (ymd 2026 1 15)⟩]))
        (calculateHolidayDays (.valid (ymd 2026 1 1)) (.valid (ymd 2026 1 31))
          (some [⟨.valid (ymd 2026 1 10), .valid (ymd 2026 1 15)⟩])
          (.list DEFAULT_HOLIDAYS)) = some 24 ∧
    ∃ totalDays : Int,
      calculateTotalDays (.valid (ymd 2026 1 1)) (.valid (ymd 2026 1 31)) = some totalDays ∧
      calculateBlockedDays (.valid (ymd 2026 1 1)) (.valid (ymd 2026 1 31))
          (some [⟨.valid (ymd 2026 1 10), .valid (ymd 2026 1 15)⟩])
        + (calculateWeekendDays (.valid (ymd 2026 1 1)) (.valid (ymd 2026 1 31))
          (some [⟨.valid (ymd 2026 1 10), .valid (ymd 2026 1 15)⟩]) : Int) ≤ totalDays :=
  have h := age_floor_inactive (ymd 2026 1 1) (ymd 2026 1 31) (by decide)
    [⟨.valid (ymd 2026 1 10), .valid (ymd 2026 1 15)⟩] DEFAULT_HOLIDAYS (by decide)
  ⟨by decide, by decide, by decide, h.elim fun t ht => ⟨t, ht.1, ht.2.2.1⟩⟩

/-- C19: the result of `normalizeBlockedRanges` does not depend on the order of its input: a
permutation of the range list normalizes to the same ranges in the same order, also when several
ranges share a start date. -/
theorem normalizeBlockedRanges_perm (ranges ranges2 : List BlockedRange)
    (h : ranges.Perm ranges2) :
    normalizeBlockedRanges (some ranges2) = normalizeBlockedRanges (some ranges) := by
  apply normalized_unique _ _ (normalize_normalized _) (normalize_normalized _)
  intro d
  rw [covered_normalize, covered_normalize]
  unfold InValidRange
  constructor
  · rintro ⟨r, hr, hc⟩
    exact ⟨r, h.mem_iff.mpr hr, hc⟩
  · rintro ⟨r, hr, hc⟩
    exact ⟨r, h.mem_iff.mp hr, hc⟩

/-- Witness of C19: two ranges starting on 2026-01-01, `[Jan 1, Jan 3]` and `[Jan 1, Jan 5]`,
followed by `[Jan 9, Jan 9]`, give `[Jan 1, Jan 5]` and `[Jan 9, Jan 9]` in either order of the
first two. -/
theorem normalizeBlockedRanges_perm_witness :
    normalizeBlockedRanges (some [⟨.valid (ymd 2026 1 1), .valid (ymd 2026 1 3)⟩,
        ⟨.valid (ymd 2026 1 1), .valid (ymd 2026 1 5)⟩,
        ⟨.valid (ymd 2026 1 9), .valid (ymd 2026 1 9)⟩]) =
      normalizeBlockedRanges (some [⟨.valid (ymd 2026 1 1), .valid (ymd 2026 1 5)⟩,
        ⟨.valid (ymd 2026 1 1), .valid (ymd 2026 1 3)⟩,
        ⟨.valid (ymd 2026 1 9), .valid (ymd 2026 1 9)⟩]) ∧
    normalizeBlockedRanges (some [⟨.valid (ymd 2026 1 1), .valid (ymd 2026 1 5)⟩,
        ⟨.valid (ymd 2026 1 1), .valid (ymd 2026 1 3)⟩,
        ⟨.valid (ymd 2026 1 9), .valid (ymd 2026 1 9)⟩]) =
      [⟨(ymd 2026 1 1).day, (ymd 2026 1 5).day⟩, ⟨(ymd 2026 1 9).day, (ymd 2026 1 9).day⟩] :=
  ⟨normalizeBlockedRanges_perm _ _ (List.Perm.swap _ _ _), by decide⟩

/-- C21: weekly periodicity of the weekend scan.  With no blocked ranges, a window of exactly
`7k` days (`calculateTotalDays = 7k`, `k >= 0`) has `calculateWeekendDays = 2k` whatever the
weekday of the start date.  For any window with `calculateTotalDays = n` the loop guard
`currentDate <= end` holds before each of the first `n` iterations of the loop body and fails
after the `n`-th, so the scan runs exactly `n` iterations, and the value returned is the counter
reached then. -/
theorem weekend_scan_periodic (s e : Dayjs) (blockedRanges : Option (List BlockedRange)) :
    (∀ k : Nat, calculateTotalDays (.valid s) (.valid e) = some (7 * (k : Int)) →
      calculateWeekendDays (.valid s) (.valid e) (some []) = 2 * k ∧
      calculateWeekendDays (.valid s) (.valid e) none = 2 * k) ∧
    (∀ n : Nat, calculateTotalDays (.valid s) (.valid e) = some (n : Int) →
      (∀ i : Nat, i < n →
        ((weekendBody (normalizeBlockedRanges blockedRanges))^[i]
          { currentDate := s.day, weekendCount := 0 }).currentDate ≤ e.day) ∧
      ¬ ((weekendBody (normalizeBlockedRanges blockedRanges))^[n]
          { currentDate := s.day, weekendCount := 0 }).currentDate ≤ e.day ∧
      calculateWeekendDays (.valid s) (.valid e) blockedRanges =
        ((weekendBody (normalizeBlockedRanges blockedRanges))^[n]
          { currentDate := s.day, weekendCount := 0 }).weekendCount) := by
  constructor
  · intro k hk
    simp only [calculateTotalDays, Option.some.injEq] at hk
    have he : e.day = s.day + 7 * (k : Int) - 1 := by omega
    have hloop := weekendLoop_no_blocked_weeks s.day k
    rw [← he] at hloop
    exact ⟨hloop, hloop⟩
  · intro n hn
    simp only [calculateTotalDays, Option.some.injEq] at hn
    refine ⟨fun i hi => ?_, ?_, ?_⟩
    · rw [iterate_weekendBody_currentDate]
      simp only
      omega
    · rw [iterate_weekendBody_currentDate]
      simp only
      omega
    · simp only [calculateWeekendDays]
      exact weekendLoop_eq_iterate e.day _ n _ (by simp only; omega)

/-- Witness of C21: the two weeks 2026-01-01..2026-01-14 (starting on a Thursday) hold 4 weekend
days, and the scan leaves the window after 14 iterations. -/
theorem weekend_scan_periodic_witness :
    calculateTotalDays (.valid (ymd 2026 1 1)) (.valid (ymd 2026 1 14)) =
      some (7 * ((2 : Nat) : Int)) ∧
    calculateWeekendDays (.valid (ymd 2026 1 1)) (.valid (ymd 2026 1 14)) (some []) = 2 * 2 ∧
    calculateTotalDays (.valid (ymd 2026 1 1)) (.valid (ymd 2026 1 14)) =
      some ((14 : Nat) : Int) ∧
    calculateWeekendDays (.valid (ymd 2026 1 1)) (.valid (ymd 2026 1 14)) (some []) =
      ((weekendBody (normalizeBlockedRanges (some [])))^[14]
        { currentDate := (ymd 2026 1 1).day, weekendCount := 0 }).weekendCount ∧
    ((weekendBody (normalizeBlockedRanges (some [])))^[14]
        { currentDate := (ymd 2026 1 1).day, weekendCount := 0 }).weekendCount = 4 :=
  have h := weekend_scan_periodic (ymd 2026 1 1) (ymd 2026 1 14) (some [])
  ⟨by decide, (h.1 2 (by decide)).1, by decide, (h.2 14 (by decide)).2.2, by decide⟩

end DateCalc
